import Mathlib

/-!
Shallow embedding of the nage narrative-runtime core: the template resolver
(src/text/templating.rs, src/text/context.rs, src/core/scripts.rs), the choice
and prompt model (src/core/choice.rs, src/core/prompt.rs) and the reversible
player history (src/core/player.rs, src/cmd/runtime.rs, src/core/manifest.rs).

Representation choices:
* `HashSet<String>` is modelled as `Finset String`, `HashMap<String, String>`
  as `Finmap`; both match the Rust types' extensional equality.
* `HashMap`s that the code iterates over (`VariableEntries`,
  `VariableApplications`) are modelled as association lists; key-distinctness,
  which the Rust `HashMap` guarantees, appears as explicit `Nodup` hypotheses.
* `VecDeque<HistoryEntry>` is a list with the NEWEST entry first, so the
  source's `push_back`/`pop_back`/`back()` become `cons`/`tail`/`head` and
  `pop_front` (eviction of the oldest entry) becomes `dropLast`.
* `Vec<String>` for the log likewise holds the newest line first.
* Lean reserves the identifier `variables`, so every field or binder the
  source calls `variables` is named `vars` here.
* Lua evaluation is an external capability (spec section 6, "script host");
  a loaded script file is modelled as an oracle from the optional sub-function
  name to the evaluation outcome.
-/

deriving instance DecidableEq for Except

namespace Nage

/-- `Notes`: `HashSet<String>` of note symbols (src/core/choice.rs). -/
abbrev Notes := Finset String

/-- `Variables`: `HashMap<String, String>` of variable values (src/core/choice.rs). -/
abbrev Variables := Finmap (fun _ : String => String)

/-- A string able to undergo script/variable templating (src/text/templating.rs). -/
structure TemplatableString where
  content : String
  deriving DecidableEq, Repr

/-- One loaded script file: an oracle from the optional sub-function name to the
evaluation outcome of the external Lua interpreter (src/core/scripts.rs). -/
def ScriptFile := Option String → Except String String

/-- A translation file: `HashMap<String, String>` from language keys to text. -/
abbrev TranslationFile := List (String × String)

/-- The data `TextContext` (src/text/context.rs) carries for filling templatable
strings: game metadata, the active language, the optionally loaded language
file, the loaded scripts, and snapshots of the player's notes and variables. -/
structure TextContext where
  game_name : String
  game_authors : List String
  game_version : String
  lang : String
  lang_file : Option TranslationFile
  scripts : List (String × ScriptFile)
  notes : Notes
  vars : Variables

/-- `TextContext::global_variable` (src/text/context.rs lines 46-57): reserved
`nage:`-prefixed names resolved from static game metadata and the language. -/
def TextContext.global_variable (ctx : TextContext) (var : String) : Option String :=
  let lower := String.mk (var.data.map Char.toLower)
  if "nage:".data.isPrefixOf lower.data then
    let name := lower.drop 5
    if name = "game_name" then some ctx.game_name
    else if name = "game_authors" then some (String.intercalate ", " ctx.game_authors)
    else if name = "game_version" then some ctx.game_version
    else if name = "lang" then some ctx.lang
    else none
  else none

/-- `str::split_once` on a character: the text before and after the first
occurrence, if any. -/
def split_once (sep : Char) : List Char → Option (List Char × List Char)
  | [] => none
  | c :: rest =>
    if c = sep then some ([], rest)
    else (split_once sep rest).map (fun pr => (c :: pr.1, pr.2))

/-- `Scripts::file_components` (src/core/scripts.rs lines 57-63): split a script
reference at the first `:` into the file name and the optional function name
(`str::split_once`). -/
def file_components (file : String) : String × Option String :=
  match split_once ':' file.data with
  | none => (file, none)
  | some pr => (String.mk pr.1, some (String.mk pr.2))

/-- The `with_context` message the source attaches to a failed script evaluation
(src/core/scripts.rs line 86). -/
def script_error (file msg : String) : String :=
  "failed to evaluate script component " ++ file ++ ": " ++ msg

/-- `Scripts::get` (src/core/scripts.rs lines 78-90): an unknown file name yields
`Ok(None)`; a found script is evaluated and its error, if any, propagates. -/
def Scripts.get (scripts : List (String × ScriptFile)) (file : String) :
    Except String (Option String) :=
  let components := file_components file
  match scripts.lookup components.1 with
  | none => .ok none
  | some script =>
    match script components.2 with
    | .ok value => .ok (some value)
    | .error e => .error (script_error file e)

namespace TemplatableString

/-- `TemplatableString::DEFAULT_VALUE`. -/
def DEFAULT_VALUE : String := "UNDEFINED"

/-- One step of the `template` scan (src/text/templating.rs lines 49-65). The
state pairs the output built so far (`result` in the source) with, while the
most recent opener is unmatched, the characters seen since it (the source keeps
the byte index `last_opener` and slices `content[(lb + 1)..index]` at the
closer; tracking the span characters directly is equivalent). -/
def template_step (before after : Char)
    (filler : String → Except String (Option String))
    (st : String × Option (List Char)) (c : Char) :
    Except String (String × Option (List Char)) :=
  if c = before then
    .ok (st.1, some [])
  else if c = after then
    match st.2 with
    | some var => do
      let filled ← filler (String.mk var)
      .ok (st.1 ++ filled.getD DEFAULT_VALUE, none)
    | none => .ok st
  else
    match st.2 with
    | none => .ok (st.1.push c, none)
    | some var => .ok (st.1, some (var ++ [c]))

/-- `TemplatableString::template` (src/text/templating.rs lines 43-67). -/
def template (content : String) (before after : Char)
    (filler : String → Except String (Option String)) : Except String String :=
  if !content.data.contains before then
    .ok content
  else
    (content.toList.foldlM (template_step before after filler) ("", none)).map Prod.fst

/-- `TemplatableString::is_str_templatable`. -/
def is_str_templatable (content : String) : Bool :=
  content.data.contains '(' || content.data.contains '<'

/-- `TemplatableString::is_templatable`. -/
def is_templatable (s : TemplatableString) : Bool :=
  is_str_templatable s.content

/-- Modelled from the spec: `TemplatableString::is_validatable` is called by
`Path::is_validatable` (src/core/path.rs line 92) but its definition is not in
the source files provided; spec section 4.2 says a jump is statically checkable
when its components "contain no template spans", so a string is validatable
exactly when it is not templatable. -/
def is_validatable (s : TemplatableString) : Bool :=
  !s.is_templatable

/-- `TemplatableString::lang_file_content` (src/text/templating.rs lines 74-78). -/
def lang_file_content (s : TemplatableString) (lang_file : Option TranslationFile) :
    String :=
  ((lang_file.map (fun file => file.lookup s.content)).join).getD s.content

/-- `TemplatableString::fill_variable` (src/text/templating.rs lines 80-82):
global `nage:` names first, then the player's variables. -/
def fill_variable (var : String) (vars : Variables) (ctx : TextContext) :
    Option String :=
  (ctx.global_variable var).or (vars.lookup var)

/-- `TemplatableString::fill` (src/text/templating.rs lines 84-94): translation
lookup, then the script-call pass, then the variable-interpolation pass. -/
def fill (s : TemplatableString) (ctx : TextContext) : Except String String := do
  let scripted ← template (s.lang_file_content ctx.lang_file) '(' ')'
    (fun var => Scripts.get ctx.scripts var)
  template scripted '<' '>' (fun var => .ok (fill_variable var ctx.vars ctx))

end TemplatableString

/-- A string that can either be parsed as `α` directly or via templating it
(src/text/templating.rs lines 97-102). Deserialization guarantees exactly one
of the two fields is populated. -/
structure TemplatableValue (α : Type) where
  value : Option α
  template : Option TemplatableString
  deriving DecidableEq, Repr

/-- `TemplatableValue::value`: construct from the actual value type. -/
def TemplatableValue.of_value {α : Type} (value : α) : TemplatableValue α :=
  ⟨some value, none⟩

/-- `default_true` (src/core/choice.rs lines 24-26). -/
def default_true : TemplatableValue Bool :=
  TemplatableValue.of_value true

/-- The `with_context` message of `TemplatableValue::get_value` on a parse
failure (src/text/templating.rs line 170). -/
def parse_error_msg (filled content : String) : String :=
  "Failed to parse value '" ++ filled ++ "' templated from '" ++ content ++ "'"

/-- `TemplatableValue::get_value` (src/text/templating.rs lines 160-174). The
`FromStr` instance of `T` is passed explicitly as `parse`; the `unreachable!()`
arm (neither field populated, impossible after deserialization) is an error. -/
def TemplatableValue.get_value {α : Type} (tv : TemplatableValue α)
    (parse : String → Except String α) (ctx : TextContext) : Except String α :=
  match tv.value with
  | some v => .ok v
  | none =>
    match tv.template with
    | some s => do
      let filled ← s.fill ctx
      match parse filled with
      | .ok v => .ok v
      | .error _ => .error (parse_error_msg filled s.content)
    | none => .error "unreachable"

/-- Rust's `bool::from_str`: accepts exactly "true" and "false". -/
def parse_bool (s : String) : Except String Bool :=
  if s = "true" then .ok true
  else if s = "false" then .ok false
  else .error "provided string was not `true` or `false`"

/-- `PathEntry` (src/core/player.rs lines 90-94): a resolved file/prompt pair. -/
structure PathEntry where
  file : String
  prompt : String
  deriving DecidableEq, Repr

/-- `Path` (src/core/path.rs): an authored jump target; the file part is
optional and both parts may be templatable. -/
structure Path where
  file : Option TemplatableString
  prompt : TemplatableString
  deriving DecidableEq, Repr

/-- `Path::is_validatable` (src/core/path.rs lines 89-95). -/
def Path.is_validatable (p : Path) : Bool :=
  (p.file.map (fun t => t.is_validatable)).getD true && p.prompt.is_validatable

/-- `Path::fill` (src/core/path.rs lines 97-108): a missing file component
defaults to the current file. -/
def Path.fill (p : Path) (current : PathEntry) (ctx : TextContext) :
    Except String PathEntry := do
  let file ← match p.file with
    | some t => t.fill ctx
    | none => pure current.file
  let prompt ← p.prompt.fill ctx
  .ok ⟨file, prompt⟩

/-- `VariableEntry` (src/core/player.rs lines 24-31). -/
structure VariableEntry where
  value : String
  previous : Option String
  deriving DecidableEq, Repr

/-- `VariableEntries`: `HashMap<String, VariableEntry>`, modelled as an
association list with (by `HashMap` construction) distinct keys. -/
abbrev VariableEntries := List (String × VariableEntry)

/-- `VariableEntry::new` (src/core/player.rs lines 37-42). -/
def VariableEntry.new (name : String) (value : String) (vars : Variables) :
    VariableEntry :=
  ⟨value, vars.lookup name⟩

/-- `VariableEntry::from_template` (src/core/player.rs lines 44-51). -/
def VariableEntry.from_template (name : String) (value : TemplatableString)
    (vars : Variables) (ctx : TextContext) : Except String VariableEntry :=
  (value.fill ctx).map (fun v => VariableEntry.new name v vars)

/-- `VariableApplications`: `HashMap<String, TemplatableString>` (association
list with distinct keys). -/
abbrev VariableApplications := List (String × TemplatableString)

/-- `VariableEntry::from_map` (src/core/player.rs lines 53-65): the short-
circuiting `collect::<Result<_>>` over the application map, written as direct
recursion. -/
def VariableEntry.from_map (applying : VariableApplications) (globals : Variables)
    (ctx : TextContext) : Except String VariableEntries :=
  match applying with
  | [] => .ok []
  | nv :: rest => do
    let e ← VariableEntry.from_template nv.1 nv.2 globals ctx
    let es ← VariableEntry.from_map rest globals ctx
    .ok ((nv.1, e) :: es)

/-- `NoteEntry` (src/core/player.rs lines 68-74). -/
structure NoteEntry where
  value : String
  take : Bool
  deriving DecidableEq, Repr

abbrev NoteEntries := List NoteEntry

/-- `NoteEntry::new` (src/core/player.rs lines 77-83). -/
def NoteEntry.new (name : TemplatableString) (take : Bool) (ctx : TextContext) :
    Except String NoteEntry :=
  (name.fill ctx).map (fun v => ⟨v, take⟩)

/-- `NoteApplication` (src/core/choice.rs lines 31-37). -/
structure NoteApplication where
  name : TemplatableString
  take : TemplatableValue Bool
  deriving DecidableEq, Repr

/-- `NoteEntry::from_application` (src/core/player.rs lines 85-87). -/
def NoteEntry.from_application (app : NoteApplication) (ctx : TextContext) :
    Except String NoteEntry := do
  NoteEntry.new app.name (← app.take.get_value parse_bool ctx) ctx

/-- `NoteRequirement` (src/core/choice.rs lines 42-48). -/
structure NoteRequirement where
  name : TemplatableString
  has : TemplatableValue Bool
  deriving DecidableEq, Repr

/-- `NoteActions` (src/core/choice.rs lines 53-65). -/
structure NoteActions where
  apply : Option (List NoteApplication)
  require : Option (List NoteRequirement)
  once : Option TemplatableString
  deriving DecidableEq, Repr

/-- `NoteActions::to_note_entries` (src/core/choice.rs lines 69-85): entries
from `apply`, then the `once` name as a give (`take = false`) entry. -/
def NoteActions.to_note_entries (na : NoteActions) (ctx : TextContext) :
    Except String NoteEntries := do
  let entries ← match na.apply with
    | some apps => apps.mapM (fun app => NoteEntry.from_application app ctx)
    | none => pure []
  match na.once with
  | some once => do
    let e ← NoteEntry.new once false ctx
    pure (entries ++ [e])
  | none => pure entries

/-- `VariableInput` (src/core/choice.rs lines 94-101). -/
structure VariableInput where
  text : Option TemplatableString
  name : TemplatableString
  deriving DecidableEq, Repr

/-- `HistoryEntry` (src/core/player.rs lines 102-119): the reversible record of
one prompt jump. -/
structure HistoryEntry where
  path : PathEntry
  display : Bool
  locked : Bool
  redirect : Bool
  notes : Option NoteEntries
  vars : Option VariableEntries
  log : Bool
  deriving DecidableEq, Repr

/-- `HistoryEntry::new` (src/core/player.rs lines 121-133): the entrypoint
entry. -/
def HistoryEntry.new (path : PathEntry) : HistoryEntry :=
  ⟨path, true, false, false, none, none, false⟩

/-- `SoundActionMode` (src/core/choice.rs lines 115-128). -/
inductive SoundActionMode where
  | queue
  | overwrite
  | passive
  | skip
  | pause
  | play
  deriving DecidableEq, Repr

/-- `SoundAction` (src/core/choice.rs lines 148-164). The playback itself is
external; only the authored data is modelled. -/
structure SoundAction where
  name : Option TemplatableString
  channel : TemplatableString
  mode : TemplatableValue SoundActionMode
  seek : Option (TemplatableValue Nat)
  speed : Option (TemplatableValue Nat)
  deriving DecidableEq, Repr

/-- `TextMode` (src/text/display.rs). -/
inductive TextMode where
  | dialogue
  | action
  | system
  deriving DecidableEq, Repr

/-- A formattable piece of text (src/text/display.rs, `Text`). Printing-speed
and sound fields are omitted: no operation embedded here reads them. -/
structure Text where
  content : TemplatableString
  mode : TextMode
  deriving DecidableEq, Repr

abbrev TextLines := List Text

/-- `Choice` (src/core/choice.rs lines 173-222). -/
structure Choice where
  response : Option Text
  tag : Option TemplatableString
  input : Option VariableInput
  jump : Option Path
  display : TemplatableValue Bool
  lock : Option (TemplatableValue Bool)
  notes : Option NoteActions
  vars : Option VariableApplications
  log : Option TemplatableString
  info_pages : Option (List TemplatableString)
  sounds : Option (List SoundAction)
  ending : Option TextLines
  drp : Option TemplatableString
  deriving DecidableEq, Repr

/-- `PromptModel` (src/core/prompt.rs lines 36-45). -/
inductive PromptModel where
  | input (name : String) (text : Option TemplatableString)
  | response
  | redirect (choice : Choice)
  | ending (lines : TextLines)
  deriving DecidableEq, Repr

/-- Whether a model is `Redirect(_)` (the `matches!` test of
src/core/choice.rs line 317). -/
def PromptModel.is_redirect : PromptModel → Bool
  | .redirect _ => true
  | _ => false

/-- `Prompt` (src/core/prompt.rs lines 28-32). -/
structure Prompt where
  text : Option TextLines
  choices : List Choice
  deriving DecidableEq, Repr

/-- `Prompts`: file name → (prompt name → prompt), two nested `HashMap`s
modelled as association lists. -/
abbrev Prompts := List (String × List (String × Prompt))

/-- `Prompt::get_file` (src/core/prompt.rs lines 73-77). -/
def Prompt.get_file (prompts : Prompts) (file : String) :
    Except String (List (String × Prompt)) :=
  match prompts.lookup file with
  | some f => .ok f
  | none => .error ("Invalid prompt file '" ++ file ++ "'")

/-- `Prompt::get` (src/core/prompt.rs lines 80-90), with the prompt name and
file passed separately as in the call sites of src/core/choice.rs. -/
def Prompt.get (prompts : Prompts) (name : String) (file : String) :
    Except String Prompt := do
  let prompt_file ← Prompt.get_file prompts file
  match prompt_file.lookup name with
  | some p => .ok p
  | none => .error ("Invalid prompt '" ++ name ++ "'; not found in file '" ++ file ++ "'")

/-- The `jump`-target half of `Choice::validate` (src/core/choice.rs lines
241-260): requires a `jump` or an `ending`; a statically-known jump target
must exist in the prompt index. -/
def Choice.validate_jump (c : Choice) (local_file : String) (prompts : Prompts) :
    Except String Unit :=
  match c.jump with
  | none =>
    if c.ending.isNone then
      .error "Lacks `jump` section, but doesn't have an `ending` section"
    else .ok ()
  | some jump =>
    if jump.is_validatable then
      match Prompt.get prompts jump.prompt.content
          ((jump.file.map (fun t => t.content)).getD local_file) with
      | .ok _ => .ok ()
      | .error _ => .error "`jump` section points to invalid prompt"
    else .ok ()

/-- `Choice::validate` (src/core/choice.rs lines 235-267): the jump/ending
check followed by the `response`-presence check when the choice has company. -/
def Choice.validate (c : Choice) (local_file : String) (has_company : Bool)
    (prompts : Prompts) : Except String Unit :=
  (c.validate_jump local_file prompts).bind (fun _ =>
    if has_company && c.response.isNone then
      .error "Lacks `response` section, but multiple choices are present in prompt"
    else .ok ())

/-- `VariableInputResult` (src/game/input.rs line 30): the variable name and the
player's entered value. -/
structure VariableInputResult where
  name : String
  value : String
  deriving DecidableEq, Repr

/-- `VariableInputResult::to_variable_entry` (src/game/input.rs lines 33-35). -/
def VariableInputResult.to_variable_entry (r : VariableInputResult)
    (vars : Variables) : String × VariableEntry :=
  (r.name, VariableEntry.new r.name r.value vars)

/-- `HashMap::insert` on an association list: replace the key's binding if
present (keeping its position), else append. -/
def VariableEntries.insert_entry (entries : VariableEntries) (name : String)
    (entry : VariableEntry) : VariableEntries :=
  if entries.any (fun nv => nv.1 = name) then
    entries.map (fun nv => if nv.1 = name then (name, entry) else nv)
  else
    entries ++ [(name, entry)]

/-- `Choice::create_variable_entries` (src/core/choice.rs lines 273-293):
none when both sources are absent, else the static applications with the input
entry inserted last (input wins a name collision). -/
def Choice.create_variable_entries (c : Choice)
    (input : Option VariableInputResult) (vars : Variables) (ctx : TextContext) :
    Except String (Option VariableEntries) :=
  let input_entry := input.map (fun r => r.to_variable_entry vars)
  match
    match c.vars with
    | some vs => (VariableEntry.from_map vs vars ctx).map some
    | none => .ok none with
  | .error e => .error e
  | .ok var_entries =>
    if input_entry.isNone && var_entries.isNone then .ok none
    else
      let entries := var_entries.getD []
      match input_entry with
      | some ne => .ok (some (entries.insert_entry ne.1 ne.2))
      | none => .ok (some entries)

/-- `HistorySettings` (src/core/manifest.rs lines 89-103). -/
structure HistorySettings where
  locked : Bool
  size : Nat
  deriving DecidableEq, Repr

/-- The `settings` keys of the `Manifest` that the embedded operations read
(src/core/manifest.rs lines 226-238); presentation and audio settings are
omitted. -/
structure Settings where
  history : HistorySettings
  deriving DecidableEq, Repr

/-- `Manifest` (src/core/manifest.rs lines 302-311), restricted to the fields
the embedded operations read. -/
structure Manifest where
  settings : Settings
  deriving DecidableEq, Repr

/-- The history-size check of `Manifest::validate` (src/core/manifest.rs lines
324-327); the `nage` version-dependency check consults the external binary
version and is omitted. -/
def Manifest.validate (m : Manifest) : Except String Unit :=
  if m.settings.history.size = 0 then
    .error "`settings.history.size` must be non-zero"
  else
    .ok ()

/-- The `locked` resolution of `Choice::to_history_entry` (src/core/choice.rs
lines 311-316): the choice's own `lock` value, or the configured global
default when absent. -/
def Choice.resolve_lock (c : Choice) (config : Manifest) (ctx : TextContext) :
    Except String Bool :=
  match c.lock with
  | some lock => lock.get_value parse_bool ctx
  | none => pure config.settings.history.locked

/-- The `notes` resolution of `Choice::to_history_entry` (src/core/choice.rs
lines 318-322). -/
def Choice.resolve_notes (c : Choice) (ctx : TextContext) :
    Except String (Option NoteEntries) :=
  match c.notes with
  | some n => (n.to_note_entries ctx).map some
  | none => pure none

/-- `Choice::to_history_entry` (src/core/choice.rs lines 298-327): `none` iff
the choice has no `jump`; otherwise resolves the path against the latest
entry, the display and lock flags (lock falling back to the configured
default), tags the entry as a redirect iff the prompt model is `Redirect`, and
resolves note and variable entries. -/
def Choice.to_history_entry (c : Choice) (latest : HistoryEntry)
    (input : Option VariableInputResult) (config : Manifest) (vars : Variables)
    (model : PromptModel) (ctx : TextContext) :
    Option (Except String HistoryEntry) :=
  c.jump.map (fun jump => do
    let path ← jump.fill latest.path ctx
    let display ← c.display.get_value parse_bool ctx
    let locked ← c.resolve_lock config ctx
    let notes ← c.resolve_notes ctx
    let vars ← c.create_variable_entries input vars ctx
    pure { path := path, display := display, locked := locked,
           redirect := model.is_redirect, notes := notes, vars := vars,
           log := c.log.isSome })

/-- `Choice::can_player_use` (src/core/choice.rs lines 334-352). -/
def Choice.can_player_use (c : Choice) (notes : Notes) (ctx : TextContext) :
    Except String Bool := do
  match c.notes with
  | some actions =>
    let requireOk ← match actions.require with
      | some require => require.allM (fun requirement => do
          let has ← requirement.has.get_value parse_bool ctx
          let name ← requirement.name.fill ctx
          pure (has = (name ∈ notes : Bool)))
      | none => pure true
    if !requireOk then
      return false
    match actions.once with
    | some once => do
      let name ← once.fill ctx
      pure (!(name ∈ notes : Bool))
    | none => pure true
  | none => pure true

/-- `Prompt::model` (src/core/prompt.rs lines 124-138). -/
def Prompt.model (p : Prompt) (ctx : TextContext) : Except String PromptModel :=
  match p.choices with
  | [choice] =>
    match choice.input with
    | some input => (input.name.fill ctx).map (fun n => .input n input.text)
    | none =>
      if choice.response.isNone then
        match choice.ending with
        | some ending => .ok (.ending ending)
        | none => .ok (.redirect choice)
      else .ok .response
  | _ => .ok .response

/-- `Prompt::validate` (src/core/prompt.rs lines 93-108): validates each choice
with `has_company = (choices.len() > 1)`. The trailing sound-key validation of
the prompt's text runs only when an audio device loaded and is omitted here
(`Resources::audio` is modelled as absent). -/
def Prompt.validate (p : Prompt) (file : String) (prompts : Prompts) :
    Except String Unit := do
  let has_company := p.choices.length > 1
  let _ ← p.choices.mapM (fun choice => choice.validate file has_company prompts)
  pure ()

/-- `Player` (src/core/player.rs lines 136-155). `history` keeps the newest
entry first (`VecDeque::back` = head); `log` keeps the newest line first. -/
structure Player where
  began : Bool
  lang : String
  channels : Finset String
  notes : Notes
  vars : Variables
  info_pages : Finset String
  log : List String
  history : List HistoryEntry
  deriving DecidableEq

/-- The note-set effect of `Player::apply_note` after the `reverse` flip
(src/core/player.rs lines 183-188): `take` removes the symbol, otherwise it is
inserted. -/
def apply_note_value (notes : Notes) (name : String) (take : Bool) : Notes :=
  if take then notes.erase name else insert name notes

/-- `Player::apply_note` (src/core/player.rs lines 177-189). The returned
`Result` is always `Ok` in the source, so the operation is modelled as pure. -/
def Player.apply_note (p : Player) (name : String) (take reverse : Bool) : Player :=
  { p with notes := apply_note_value p.notes name (if reverse then !take else take) }

/-- The forward application of a history entry's note entries
(the first loop of `Player::apply_entry`, src/core/player.rs lines 248-252). -/
def apply_note_entries (notes : Notes) (entries : NoteEntries) : Notes :=
  entries.foldl (fun acc e => apply_note_value acc e.value e.take) notes

/-- The reverse application of a history entry's note entries
(the first loop of `Player::back`, src/core/player.rs lines 209-213): each
entry is replayed with its `take` flag flipped, in the stored order. -/
def undo_note_entries (notes : Notes) (entries : NoteEntries) : Notes :=
  entries.foldl (fun acc e => apply_note_value acc e.value (!e.take)) notes

/-- One `HashMap::insert` of a variable entry's new value. -/
def extend_one (acc : Variables) (nv : String × VariableEntry) : Variables :=
  acc.insert nv.1 nv.2.value

/-- `self.variables.extend(values)` over the entry map's new values
(src/core/player.rs lines 253-257). -/
def extend_vars (vars : Variables) (entries : VariableEntries) : Variables :=
  entries.foldl extend_one vars

/-- One iteration of the variable-restoration loop of `Player::back`
(src/core/player.rs lines 214-221): restore `previous` if present, else remove
the key. -/
def restore_one (acc : Variables) (nv : String × VariableEntry) : Variables :=
  match nv.2.previous with
  | some previous => acc.insert nv.1 previous
  | none => acc.erase nv.1

/-- The variable-restoration loop of `Player::back`. -/
def restore_vars (vars : Variables) (entries : VariableEntries) : Variables :=
  entries.foldl restore_one vars

/-- `Player::latest_entry` (src/core/player.rs lines 192-194). -/
def Player.latest_entry (p : Player) : Except String HistoryEntry :=
  match p.history with
  | [] => .error "History empty"
  | e :: _ => .ok e

/-- The state reversal one iteration of `Player::back` performs after popping
`latest` (src/core/player.rs lines 209-224): undo note entries, restore
variables, pop the newest log line if one was gained. -/
def Player.undo_entry (p : Player) (e : HistoryEntry) : Player :=
  { p with
    notes := match e.notes with
      | some apps => undo_note_entries p.notes apps
      | none => p.notes
    vars := match e.vars with
      | some vs => restore_vars p.vars vs
      | none => p.vars
    log := if e.log then p.log.tail else p.log }

theorem Player.undo_entry_history (p : Player) (e : HistoryEntry) :
    (p.undo_entry e).history = p.history := rfl

/-- The loop of `Player::back`, recursing structurally on the history list the
player still holds (the argument always equals `p.history`): pop the newest
entry if unlocked, undo it, and repeat while the popped entry's `redirect` flag
is set. -/
def Player.back_loop (p : Player) : List HistoryEntry → Except String Player
  | [] => .error "History empty"
  | latest :: rest =>
    if latest.locked then .error "Can't go back right now!"
    else
      let q := Player.undo_entry { p with history := rest } latest
      if latest.redirect then q.back_loop rest else .ok q

/-- `Player::back` (src/core/player.rs lines 206-230), with
`Player::pop_latest_entry` (lines 197-203) inlined in `back_loop` as the match
on the newest entry and its `locked` check. -/
def Player.back (p : Player) : Except String Player :=
  p.back_loop p.history

/-- `RuntimeCommand::back` (src/cmd/runtime.rs lines 66-72): the player-facing
back command refuses when history has at most one entry, then defers to
`Player::back`. -/
def RuntimeCommand.back (p : Player) : Except String Player :=
  if p.history.length ≤ 1 then .error "Can't go back right now!"
  else p.back

/-- The info-page unlocking loop of `Player::apply_entry` (src/core/player.rs
lines 258-263): insert each of the choice's info pages, filled in order. -/
def fill_info_pages (choice : Choice) (pages0 : Finset String) (ctx : TextContext) :
    Except String (Finset String) :=
  match choice.info_pages with
  | some pages =>
    pages.foldlM (fun acc page => (page.fill ctx).map (fun n => insert n acc)) pages0
  | none => pure pages0

/-- `Player::apply_entry` (src/core/player.rs lines 242-265): apply note
entries, merge variable entry values, and unlock the choice's (resolved) info
pages. -/
def Player.apply_entry (p : Player) (entry : HistoryEntry) (choice : Choice)
    (ctx : TextContext) : Except String Player := do
  let notes := match entry.notes with
    | some entries => apply_note_entries p.notes entries
    | none => p.notes
  let vars := match entry.vars with
    | some vs => extend_vars p.vars vs
    | none => p.vars
  let info_pages ← fill_info_pages choice p.info_pages ctx
  .ok { p with notes := notes, vars := vars, info_pages := info_pages }

/-- `Player::choose` (src/core/player.rs lines 267-295): build the history
entry if the choice jumps, apply it, push it, and evict the oldest entry when
the configured cap is exceeded. Sound actions borrow the player immutably
(`audio.accept(&self, ...)`) and cannot change its state, so they are not
modelled. -/
def Player.choose (p : Player) (choice : Choice) (input : Option VariableInputResult)
    (config : Manifest) (model : PromptModel) (ctx : TextContext) :
    Except String Player := do
  let latest ← p.latest_entry
  match choice.to_history_entry latest input config p.vars model ctx with
  | none => .ok p
  | some result => do
    let entry ← result
    let q ← p.apply_entry entry choice ctx
    let q := { q with history := entry :: q.history }
    let q :=
      if q.history.length > config.settings.history.size then
        { q with history := q.history.dropLast }
      else q
    .ok q

end Nage

namespace Nage

/-! ### Helper lemmas about `Except` -/

@[simp]
theorem except_bind_ok {ε α β : Type} (a : α) (f : α → Except ε β) :
    (Except.ok a : Except ε α) >>= f = f a := rfl

@[simp]
theorem except_bind_error {ε α β : Type} (e : ε) (f : α → Except ε β) :
    (Except.error e : Except ε α) >>= f = Except.error e := rfl

@[simp]
theorem except_map_ok {ε α β : Type} (f : α → β) (a : α) :
    (Except.ok a : Except ε α).map f = Except.ok (f a) := rfl

@[simp]
theorem except_map_error {ε α β : Type} (f : α → β) (e : ε) :
    (Except.error e : Except ε α).map f = Except.error e := rfl

@[simp]
theorem except_pure_eq_ok {ε α : Type} (a : α) :
    (pure a : Except ε α) = Except.ok a := rfl

@[simp]
theorem except_method_bind_ok {ε α β : Type} (a : α) (f : α → Except ε β) :
    (Except.ok a : Except ε α).bind f = f a := rfl

@[simp]
theorem except_method_bind_error {ε α β : Type} (e : ε) (f : α → Except ε β) :
    (Except.error e : Except ε α).bind f = Except.error e := rfl

/-! ### Reversal of note entries -/

/-- A note entry actually changes the note set it is applied to: a give
(`take = false`) inserts an absent symbol and a take removes a present one. -/
def NoteEntry.effective (e : NoteEntry) (notes : Notes) : Prop :=
  e.value ∈ notes ↔ e.take = true

instance (e : NoteEntry) (notes : Notes) : Decidable (e.effective notes) := by
  unfold NoteEntry.effective; infer_instance

theorem apply_note_value_undo {s : Notes} {v : String} {t : Bool}
    (h : v ∈ s ↔ t = true) :
    apply_note_value (apply_note_value s v t) v (!t) = s := by
  cases t with
  | true => simpa [apply_note_value] using Finset.insert_erase (h.mpr rfl)
  | false =>
    have hv : v ∉ s := fun hm => by simpa using h.mp hm
    simpa [apply_note_value] using Finset.erase_insert hv

theorem apply_note_value_comm (s : Notes) {v w : String} (t t' : Bool)
    (hvw : v ≠ w) :
    apply_note_value (apply_note_value s w t) v t' =
      apply_note_value (apply_note_value s v t') w t := by
  cases t <;> cases t' <;>
    · simp only [apply_note_value]
      ext x
      by_cases hxv : x = v <;> by_cases hxw : x = w <;>
        simp_all [Finset.mem_insert, Finset.mem_erase]

theorem apply_note_entries_nil (s : Notes) : apply_note_entries s [] = s := rfl

theorem apply_note_entries_cons (s : Notes) (e : NoteEntry) (l : NoteEntries) :
    apply_note_entries s (e :: l) =
      apply_note_entries (apply_note_value s e.value e.take) l := rfl

theorem undo_note_entries_cons (s : Notes) (e : NoteEntry) (l : NoteEntries) :
    undo_note_entries s (e :: l) =
      undo_note_entries (apply_note_value s e.value (!e.take)) l := rfl

theorem apply_note_value_entries_comm (l : NoteEntries) (s : Notes)
    (v : String) (t : Bool) (hv : v ∉ l.map NoteEntry.value) :
    apply_note_value (apply_note_entries s l) v t =
      apply_note_entries (apply_note_value s v t) l := by
  induction l generalizing s with
  | nil => rfl
  | cons f rest ih =>
    have hvf : v ≠ f.value := by
      intro hc; exact hv (by simp [hc])
    have hrest : v ∉ rest.map NoteEntry.value := by
      intro hc; exact hv (by simp [hc])
    rw [apply_note_entries_cons, apply_note_entries_cons, ih _ hrest,
      apply_note_value_comm _ _ _ hvf]

/-- Applying a list of note entries with pairwise-distinct names, each
effective on `s`, and then reverse-applying the same list (each `take`
flipped, in the same order, as `Player::back` does) restores `s`. -/
theorem undo_apply_note_entries (l : NoteEntries) (s : Notes)
    (hnodup : (l.map NoteEntry.value).Nodup)
    (heff : ∀ e ∈ l, e.effective s) :
    undo_note_entries (apply_note_entries s l) l = s := by
  induction l generalizing s with
  | nil => rfl
  | cons e rest ih =>
    rw [List.map_cons] at hnodup
    have hnotin : e.value ∉ rest.map NoteEntry.value := (List.nodup_cons.mp hnodup).1
    have hrest_nodup : (rest.map NoteEntry.value).Nodup := (List.nodup_cons.mp hnodup).2
    rw [apply_note_entries_cons, undo_note_entries_cons,
      apply_note_value_entries_comm _ _ _ _ hnotin,
      apply_note_value_undo (heff e (by simp)), ih _ hrest_nodup]
    intro f hf
    exact heff f (List.mem_cons_of_mem e hf)

end Nage

namespace Nage

/-! ### Reversal of variable entries -/

/-- A variable entry's recorded `previous` is the value the variable had in
`vars`, exactly as `VariableEntry::new` records it at entry-creation time. -/
def entry_prev_ok (vars : Variables) (nv : String × VariableEntry) : Prop :=
  nv.2.previous = vars.lookup nv.1

instance (vars : Variables) (nv : String × VariableEntry) :
    Decidable (entry_prev_ok vars nv) := by
  unfold entry_prev_ok; infer_instance

theorem finmap_insert_lookup_self {v : Variables} {a : String} {p : String}
    (h : v.lookup a = some p) : v.insert a p = v := by
  apply Finmap.ext_lookup
  intro x
  by_cases hx : x = a
  · subst hx; rw [Finmap.lookup_insert, h]
  · rw [Finmap.lookup_insert_of_ne _ hx]

theorem finmap_erase_insert_self {v : Variables} {a : String} {b : String}
    (h : v.lookup a = none) : (v.insert a b).erase a = v := by
  apply Finmap.ext_lookup
  intro x
  by_cases hx : x = a
  · subst hx; rw [Finmap.lookup_erase, h]
  · rw [Finmap.lookup_erase_ne hx, Finmap.lookup_insert_of_ne _ hx]

theorem restore_one_extend_one {v : Variables} {nv : String × VariableEntry}
    (h : entry_prev_ok v nv) : restore_one (extend_one v nv) nv = v := by
  obtain ⟨a, val, prev⟩ := nv
  unfold entry_prev_ok at h
  simp only at h
  unfold restore_one extend_one
  cases prev with
  | some p =>
    simp only
    rw [Finmap.insert_insert]
    exact finmap_insert_lookup_self h.symm
  | none =>
    simp only
    exact finmap_erase_insert_self h.symm

theorem restore_one_extend_one_comm (v : Variables)
    {nv mw : String × VariableEntry} (h : nv.1 ≠ mw.1) :
    restore_one (extend_one v mw) nv = extend_one (restore_one v nv) mw := by
  obtain ⟨a, val, prev⟩ := nv
  obtain ⟨b, valb, prevb⟩ := mw
  simp only at h
  unfold restore_one extend_one
  cases prev with
  | some p =>
    simp only
    apply Finmap.ext_lookup
    intro x
    by_cases hx1 : x = a
    · subst hx1
      rw [Finmap.lookup_insert, Finmap.lookup_insert_of_ne _ h, Finmap.lookup_insert]
    · by_cases hx2 : x = b
      · subst hx2
        rw [Finmap.lookup_insert_of_ne _ hx1, Finmap.lookup_insert,
          Finmap.lookup_insert]
      · rw [Finmap.lookup_insert_of_ne _ hx1, Finmap.lookup_insert_of_ne _ hx2,
          Finmap.lookup_insert_of_ne _ hx2, Finmap.lookup_insert_of_ne _ hx1]
  | none =>
    simp only
    apply Finmap.ext_lookup
    intro x
    by_cases hx1 : x = a
    · subst hx1
      rw [Finmap.lookup_erase, Finmap.lookup_insert_of_ne _ h,
        Finmap.lookup_erase]
    · by_cases hx2 : x = b
      · subst hx2
        rw [Finmap.lookup_erase_ne hx1, Finmap.lookup_insert, Finmap.lookup_insert]
      · rw [Finmap.lookup_erase_ne hx1, Finmap.lookup_insert_of_ne _ hx2,
          Finmap.lookup_insert_of_ne _ hx2, Finmap.lookup_erase_ne hx1]

theorem extend_vars_cons (v : Variables) (nv : String × VariableEntry)
    (l : VariableEntries) :
    extend_vars v (nv :: l) = extend_vars (extend_one v nv) l := rfl

theorem restore_vars_cons (v : Variables) (nv : String × VariableEntry)
    (l : VariableEntries) :
    restore_vars v (nv :: l) = restore_vars (restore_one v nv) l := rfl

theorem restore_one_extend_vars_comm (l : VariableEntries) (v : Variables)
    (nv : String × VariableEntry) (hv : nv.1 ∉ l.map Prod.fst) :
    restore_one (extend_vars v l) nv = extend_vars (restore_one v nv) l := by
  induction l generalizing v with
  | nil => rfl
  | cons mw rest ih =>
    have hne : nv.1 ≠ mw.1 := by
      intro hc; exact hv (by simp [hc])
    have hrest : nv.1 ∉ rest.map Prod.fst := by
      intro hc; exact hv (by simp [hc])
    rw [extend_vars_cons, extend_vars_cons, ih _ hrest,
      restore_one_extend_one_comm _ hne]

/-- Extending the variable map with a list of entries with pairwise-distinct
keys, each recording the pre-extension value as its `previous`, and then
replaying the restoration loop of `Player::back` over the same list restores
the original map. -/
theorem restore_extend_vars (l : VariableEntries) (v : Variables)
    (hnodup : (l.map Prod.fst).Nodup)
    (hprev : ∀ nv ∈ l, entry_prev_ok v nv) :
    restore_vars (extend_vars v l) l = v := by
  induction l generalizing v with
  | nil => rfl
  | cons nv rest ih =>
    rw [List.map_cons] at hnodup
    have hnotin : nv.1 ∉ rest.map Prod.fst := (List.nodup_cons.mp hnodup).1
    have hrest_nodup : (rest.map Prod.fst).Nodup := (List.nodup_cons.mp hnodup).2
    rw [extend_vars_cons, restore_vars_cons,
      restore_one_extend_vars_comm _ _ _ hnotin,
      restore_one_extend_one (hprev nv (by simp)), ih _ hrest_nodup]
    intro mw hmw
    exact hprev mw (List.mem_cons_of_mem nv hmw)

end Nage

namespace Nage

/-! ### Inversion and unfolding lemmas for `choose` and `back` -/

theorem apply_entry_ok {p : Player} {entry : HistoryEntry} {choice : Choice}
    {ctx : TextContext} {q : Player}
    (h : p.apply_entry entry choice ctx = .ok q) :
    q = { p with
      notes := match entry.notes with
        | some es => apply_note_entries p.notes es
        | none => p.notes
      vars := match entry.vars with
        | some vs => extend_vars p.vars vs
        | none => p.vars
      info_pages := q.info_pages } := by
  unfold Player.apply_entry at h
  cases hfold : fill_info_pages choice p.info_pages ctx with
  | error e => rw [hfold] at h; simp at h
  | ok ip =>
    rw [hfold] at h
    simp only [except_bind_ok] at h
    injection h with h
    subst h
    rfl

theorem apply_entry_ok_history {p : Player} {entry : HistoryEntry}
    {choice : Choice} {ctx : TextContext} {q : Player}
    (h : p.apply_entry entry choice ctx = .ok q) : q.history = p.history := by
  rw [apply_entry_ok h]

theorem choose_spec {p : Player} {choice : Choice}
    {input : Option VariableInputResult} {config : Manifest} {model : PromptModel}
    {ctx : TextContext} {latest0 : HistoryEntry} {hs : List HistoryEntry}
    {entry : HistoryEntry} {q : Player}
    (hhist : p.history = latest0 :: hs)
    (hent : choice.to_history_entry latest0 input config p.vars model ctx =
      some (.ok entry))
    (happ : p.apply_entry entry choice ctx = .ok q) :
    p.choose choice input config model ctx = .ok
      (if (entry :: q.history).length > config.settings.history.size
       then { q with history := (entry :: q.history).dropLast }
       else { q with history := entry :: q.history }) := by
  have hlat : p.latest_entry = .ok latest0 := by
    unfold Player.latest_entry; rw [hhist]
  unfold Player.choose
  rw [hlat]
  simp only [except_bind_ok]
  rw [hent]
  simp only [except_bind_ok]
  rw [happ]
  simp only [except_bind_ok]

theorem choose_ok_inv {p : Player} {choice : Choice}
    {input : Option VariableInputResult} {config : Manifest} {model : PromptModel}
    {ctx : TextContext} {p1 : Player}
    (h : p.choose choice input config model ctx = .ok p1) :
    (p1 = p ∧ ∀ latest0 hs, p.history = latest0 :: hs →
      choice.to_history_entry latest0 input config p.vars model ctx = none) ∨
    ∃ latest0 hs entry q,
      p.history = latest0 :: hs ∧
      choice.to_history_entry latest0 input config p.vars model ctx =
        some (.ok entry) ∧
      p.apply_entry entry choice ctx = .ok q ∧
      p1 = (if (entry :: q.history).length > config.settings.history.size
            then { q with history := (entry :: q.history).dropLast }
            else { q with history := entry :: q.history }) := by
  unfold Player.choose at h
  cases hh : p.history with
  | nil =>
    unfold Player.latest_entry at h
    rw [hh] at h
    simp at h
  | cons latest0 hs =>
    have hlat : p.latest_entry = .ok latest0 := by
      unfold Player.latest_entry; rw [hh]
    rw [hlat] at h
    simp only [except_bind_ok] at h
    cases hent : choice.to_history_entry latest0 input config p.vars model ctx with
    | none =>
      rw [hent] at h
      simp only at h
      injection h with h
      left
      refine ⟨h.symm, ?_⟩
      intro l0 hs0 hh0
      injection hh0 with hl hr
      subst hl
      exact hent
    | some result =>
      rw [hent] at h
      cases result with
      | error e => simp at h
      | ok entry =>
        simp only [except_bind_ok] at h
        cases happ : p.apply_entry entry choice ctx with
        | error e => rw [happ] at h; simp at h
        | ok q =>
          rw [happ] at h
          simp only [except_bind_ok] at h
          injection h with h
          right
          exact ⟨latest0, hs, entry, q, rfl, hent, happ, h.symm⟩

theorem back_stop {p : Player} {e : HistoryEntry} {rest : List HistoryEntry}
    (hh : p.history = e :: rest) (hlock : e.locked = false)
    (hred : e.redirect = false) :
    p.back = .ok (Player.undo_entry { p with history := rest } e) := by
  unfold Player.back
  rw [hh]
  unfold Player.back_loop
  simp [hlock, hred]

theorem back_continue {p : Player} {e : HistoryEntry} {rest : List HistoryEntry}
    (hh : p.history = e :: rest) (hlock : e.locked = false)
    (hred : e.redirect = true) :
    p.back = (Player.undo_entry { p with history := rest } e).back := by
  have h1 : p.back = Player.back_loop p p.history := rfl
  have h2 : (Player.undo_entry { p with history := rest } e).back =
      Player.back_loop (Player.undo_entry { p with history := rest } e) rest := rfl
  rw [h1, h2, hh]
  conv_lhs => unfold Player.back_loop
  simp [hlock, hred]

theorem back_loop_ok_length {l : List HistoryEntry} :
    ∀ {p q : Player}, Player.back_loop p l = .ok q →
      q.history.length < l.length := by
  induction l with
  | nil => intro p q h; simp [Player.back_loop] at h
  | cons e rest ih =>
    intro p q h
    unfold Player.back_loop at h
    by_cases hlock : e.locked
    · simp [hlock] at h
    · simp only [hlock, if_false, Bool.false_eq_true] at h
      by_cases hred : e.redirect
      · rw [if_pos hred] at h
        have := ih h
        simp
        omega
      · rw [if_neg hred] at h
        injection h with h
        subst h
        simp [Player.undo_entry_history]

theorem back_ok_length {p q : Player} (h : p.back = .ok q) :
    q.history.length < p.history.length :=
  back_loop_ok_length h

end Nage

namespace Nage

/-! ### The recorded `previous` values of created variable entries -/

theorem from_template_prev {name : String} {value : TemplatableString}
    {globals : Variables} {ctx : TextContext} {e : VariableEntry}
    (h : VariableEntry.from_template name value globals ctx = .ok e) :
    e.previous = globals.lookup name := by
  unfold VariableEntry.from_template at h
  cases hfill : value.fill ctx with
  | error err => rw [hfill] at h; simp at h
  | ok v =>
    rw [hfill] at h
    simp only [except_map_ok] at h
    injection h with h
    subst h
    rfl

theorem from_map_spec {applying : VariableApplications} {globals : Variables}
    {ctx : TextContext} {entries : VariableEntries}
    (h : VariableEntry.from_map applying globals ctx = .ok entries) :
    entries.map Prod.fst = applying.map Prod.fst ∧
      ∀ nv ∈ entries, entry_prev_ok globals nv := by
  induction applying generalizing entries with
  | nil =>
    unfold VariableEntry.from_map at h
    injection h with h
    subst h
    simp
  | cons nv rest ih =>
    unfold VariableEntry.from_map at h
    cases h1 : VariableEntry.from_template nv.1 nv.2 globals ctx with
    | error err => rw [h1] at h; simp at h
    | ok e =>
      rw [h1] at h
      simp only [except_bind_ok] at h
      cases h2 : VariableEntry.from_map rest globals ctx with
      | error err => rw [h2] at h; simp at h
      | ok es =>
        rw [h2] at h
        simp only [except_bind_ok] at h
        injection h with h
        subst h
        obtain ⟨ihk, ihp⟩ := ih h2
        constructor
        · simp [ihk]
        · intro mw hmw
          rcases List.mem_cons.mp hmw with hmw | hmw
          · subst hmw
            exact from_template_prev h1
          · exact ihp mw hmw

theorem insert_entry_keys {entries : VariableEntries} {name : String}
    {entry : VariableEntry} (h : (entries.map Prod.fst).Nodup) :
    ((entries.insert_entry name entry).map Prod.fst).Nodup := by
  unfold VariableEntries.insert_entry
  by_cases hmem : entries.any (fun nv => nv.1 = name)
  · rw [if_pos hmem]
    have : (entries.map (fun nv => if nv.1 = name then (name, entry) else nv)).map
        Prod.fst = entries.map Prod.fst := by
      rw [List.map_map]
      apply List.map_congr_left
      intro nv _
      by_cases hnv : nv.1 = name
      · simp [hnv]
      · simp [hnv]
    rw [this]
    exact h
  · rw [if_neg hmem]
    rw [List.map_append]
    simp only [List.map_cons, List.map_nil]
    rw [List.nodup_append]
    refine ⟨h, List.nodup_singleton name, ?_⟩
    intro a ha hb
    simp only [List.mem_singleton] at hb
    subst hb
    obtain ⟨nv, hnv, hfst⟩ := List.mem_map.mp ha
    exact hmem (List.any_eq_true.mpr ⟨nv, hnv, by simp [hfst]⟩)

theorem insert_entry_prev_ok {entries : VariableEntries} {name : String}
    {entry : VariableEntry} {vars : Variables}
    (hall : ∀ nv ∈ entries, entry_prev_ok vars nv)
    (hone : entry.previous = vars.lookup name) :
    ∀ nv ∈ entries.insert_entry name entry, entry_prev_ok vars nv := by
  intro nv hnv
  unfold VariableEntries.insert_entry at hnv
  by_cases hmem : entries.any (fun mv => mv.1 = name)
  · rw [if_pos hmem] at hnv
    obtain ⟨mv, hmv, heq⟩ := List.mem_map.mp hnv
    by_cases hm : mv.1 = name
    · rw [if_pos hm] at heq
      subst heq
      exact hone
    · rw [if_neg hm] at heq
      subst heq
      exact hall mv hmv
  · rw [if_neg hmem] at hnv
    rcases List.mem_append.mp hnv with hnv | hnv
    · exact hall nv hnv
    · simp only [List.mem_singleton] at hnv
      subst hnv
      exact hone

theorem create_variable_entries_spec {c : Choice}
    {input : Option VariableInputResult} {vars : Variables} {ctx : TextContext}
    {entries : VariableEntries}
    (hkeys : ∀ vs, c.vars = some vs → (vs.map Prod.fst).Nodup)
    (h : c.create_variable_entries input vars ctx = .ok (some entries)) :
    (entries.map Prod.fst).Nodup ∧ ∀ nv ∈ entries, entry_prev_ok vars nv := by
  unfold Choice.create_variable_entries at h
  cases hcv : c.vars with
  | none =>
    rw [hcv] at h
    dsimp only at h
    cases hin : input with
    | none => rw [hin] at h; simp at h
    | some r =>
      rw [hin] at h
      simp only [Option.map_some, Option.isNone_some, Bool.false_and,
        Bool.false_eq_true, if_false, Option.getD_none] at h
      injection h with h
      injection h with h
      subst h
      constructor
      · exact insert_entry_keys (by simp)
      · exact insert_entry_prev_ok (by simp) rfl
  | some vs =>
    rw [hcv] at h
    dsimp only at h
    cases hfm : VariableEntry.from_map vs vars ctx with
    | error err => rw [hfm] at h; simp at h
    | ok es =>
      rw [hfm] at h
      simp only [except_map_ok] at h
      obtain ⟨hk, hp⟩ := from_map_spec hfm
      have hes_nodup : (es.map Prod.fst).Nodup := by
        rw [hk]; exact hkeys vs hcv
      cases hin : input with
      | none =>
        rw [hin] at h
        simp only [Option.map_none, Option.isNone_none, Option.isNone_some,
          Bool.true_and, Bool.false_eq_true, if_false, Option.getD_some] at h
        injection h with h
        injection h with h
        subst h
        exact ⟨hes_nodup, hp⟩
      | some r =>
        rw [hin] at h
        simp only [Option.map_some, Option.isNone_some, Bool.false_and,
          Bool.false_eq_true, if_false, Option.getD_some] at h
        injection h with h
        injection h with h
        subst h
        exact ⟨insert_entry_keys hes_nodup, insert_entry_prev_ok hp rfl⟩

end Nage

namespace Nage

/-- Inverting a successful `Choice::to_history_entry`: the entry's `vars` field
is exactly what `Choice::create_variable_entries` produced. -/
theorem to_history_entry_vars_spec {c : Choice} {latest : HistoryEntry}
    {input : Option VariableInputResult} {config : Manifest} {vars : Variables}
    {model : PromptModel} {ctx : TextContext} {entry : HistoryEntry}
    (h : c.to_history_entry latest input config vars model ctx = some (.ok entry)) :
    c.create_variable_entries input vars ctx = .ok entry.vars := by
  unfold Choice.to_history_entry at h
  cases hj : c.jump with
  | none => rw [hj] at h; simp at h
  | some jump =>
    rw [hj] at h
    dsimp only [Option.map] at h
    injection h with h
    cases h1 : jump.fill latest.path ctx with
    | error e => rw [h1] at h; simp at h
    | ok path =>
      rw [h1] at h
      simp only [except_bind_ok] at h
      cases h2 : c.display.get_value parse_bool ctx with
      | error e => rw [h2] at h; simp at h
      | ok display =>
        rw [h2] at h
        simp only [except_bind_ok] at h
        cases h3 : c.resolve_lock config ctx with
        | error e => rw [h3] at h; simp at h
        | ok locked =>
          rw [h3] at h
          simp only [except_bind_ok] at h
          cases h4 : c.resolve_notes ctx with
          | error e => rw [h4] at h; simp at h
          | ok notes =>
            rw [h4] at h
            simp only [except_bind_ok] at h
            cases h5 : c.create_variable_entries input vars ctx with
            | error e => rw [h5] at h; simp at h
            | ok vrs =>
              rw [h5] at h
              simp only [except_bind_ok, except_pure_eq_ok] at h
              injection h with h
              rw [← h]

end Nage

namespace Nage

/-- C1 (amended): a choice applied via `Player::choose` and reversed via
`Player::back` — with the history cap not exceeded, the created entry neither
locked nor a redirect, and (the amendment) every note entry of the created
history entry effective on the pre-choice Notes (a give names an absent note,
a take names a held one) with pairwise-distinct note names, and the choice's
variable-application keys distinct (as the source `HashMap` guarantees) —
leaves Notes and Variables equal to their pre-choice snapshots and the history
length unchanged. -/
theorem c1_apply_back_identity
    (p p1 p2 : Player) (choice : Choice) (input : Option VariableInputResult)
    (config : Manifest) (model : PromptModel) (ctx : TextContext)
    (latest0 : HistoryEntry) (hs : List HistoryEntry) (entry : HistoryEntry)
    (hhist : p.history = latest0 :: hs)
    (hent : choice.to_history_entry latest0 input config p.vars model ctx =
      some (.ok entry))
    (hcap : p.history.length < config.settings.history.size)
    (hlock : entry.locked = false)
    (hred : entry.redirect = false)
    (heff : ∀ e ∈ entry.notes.getD [], e.effective p.notes)
    (hnodup : ((entry.notes.getD []).map NoteEntry.value).Nodup)
    (hkeys : ((choice.vars.getD []).map Prod.fst).Nodup)
    (hch : p.choose choice input config model ctx = .ok p1)
    (hba : p1.back = .ok p2) :
    p2.notes = p.notes ∧ p2.vars = p.vars ∧
      p2.history.length = p.history.length := by
  rcases choose_ok_inv hch with ⟨_, hnone⟩ |
    ⟨l0, hs0, entry', q, hh0, hent', happ, hp1⟩
  · rw [hnone latest0 hs hhist] at hent
    exact absurd hent (by simp)
  · rw [hhist] at hh0
    injection hh0 with hl hr
    subst hl
    subst hr
    rw [hent] at hent'
    injection hent' with he
    injection he with he
    subst he
    have hqh : q.history = p.history := apply_entry_ok_history happ
    have hcond : ¬ ((entry :: q.history).length > config.settings.history.size) := by
      simp only [List.length_cons, hqh]
      omega
    rw [if_neg hcond] at hp1
    have hqeq := apply_entry_ok happ
    have hp1h : p1.history = entry :: q.history := by rw [hp1]
    have hback := back_stop hp1h hlock hred
    rw [hba] at hback
    injection hback with hback
    have hp2 : p2 = Player.undo_entry q entry := by
      rw [hback, hp1]
    have hqnotes : q.notes = (match entry.notes with
        | some es => apply_note_entries p.notes es
        | none => p.notes) := by rw [hqeq]
    have hqvars : q.vars = (match entry.vars with
        | some vs => extend_vars p.vars vs
        | none => p.vars) := by rw [hqeq]
    refine ⟨?_, ?_, ?_⟩
    · rw [hp2]
      show (match entry.notes with
        | some apps => undo_note_entries q.notes apps
        | none => q.notes) = p.notes
      cases hn : entry.notes with
      | none => rw [hqnotes, hn]
      | some l =>
        rw [hqnotes, hn]
        refine undo_apply_note_entries l p.notes ?_ ?_
        · rw [hn] at hnodup
          simpa using hnodup
        · rw [hn] at heff
          simpa using heff
    · rw [hp2]
      show (match entry.vars with
        | some vs => restore_vars q.vars vs
        | none => q.vars) = p.vars
      have hcv := to_history_entry_vars_spec hent
      cases hv : entry.vars with
      | none => rw [hqvars, hv]
      | some es =>
        rw [hv] at hcv
        have hkeys' : ∀ vs, choice.vars = some vs → (vs.map Prod.fst).Nodup := by
          intro vs hvs
          rw [hvs] at hkeys
          simpa using hkeys
        obtain ⟨hnd, hpr⟩ := create_variable_entries_spec hkeys' hcv
        rw [hqvars, hv]
        exact restore_extend_vars es p.vars hnd hpr
    · rw [hp2]
      show q.history.length = p.history.length
      rw [hqh]

end Nage

namespace Nage

/-! ### Concrete fixtures for witnesses and counterexamples -/

/-- A concrete text context: no translation file, no scripts, empty player
data snapshots. -/
def test_ctx : TextContext := ⟨"G", ["a"], "1.0.0", "en_us", none, [], ∅, ∅⟩

/-- A concrete manifest: history unlocked by default, cap 5. -/
def test_config : Manifest := ⟨⟨⟨false, 5⟩⟩⟩

/-- A concrete entrypoint history entry. -/
def entry0 : HistoryEntry := HistoryEntry.new ⟨"main", "start"⟩

/-- A choice with every optional field absent. -/
def empty_choice : Choice :=
  { response := none, tag := none, input := none, jump := none,
    display := default_true, lock := none, notes := none, vars := none,
    log := none, info_pages := none, sounds := none, ending := none, drp := none }

/-- A concrete player holding note "x" and fresh history. -/
def test_player : Player :=
  { began := true, lang := "en_us", channels := ∅, notes := {"x"}, vars := ∅,
    info_pages := ∅, log := [], history := [entry0] }

/-- A choice that jumps and re-gives the note "x" the player already holds. -/
def c1cex_choice : Choice :=
  { empty_choice with
    jump := some ⟨none, ⟨"next"⟩⟩,
    notes := some { apply := some [⟨⟨"x"⟩, TemplatableValue.of_value false⟩],
                    require := none, once := none } }

/-- The history entry `c1cex_choice` creates from `entry0`. -/
def c1cex_entry : HistoryEntry :=
  { path := ⟨"main", "next"⟩, display := true, locked := false,
    redirect := false, notes := some [⟨"x", false⟩], vars := none, log := false }

/-- C1 counterexample: the claim as stated fails on a choice whose note
application re-gives a note the player already holds. All of the claim's side
conditions hold (cap not exceeded, entry unlocked, not a redirect), yet after
`choose` and `back` the Notes set is empty instead of the pre-choice `{"x"}`:
the reverse application removes a note the forward application never added. -/
theorem c1_counterexample :
    c1cex_choice.to_history_entry entry0 none test_config test_player.vars
        PromptModel.response test_ctx = some (.ok c1cex_entry) ∧
    c1cex_entry.locked = false ∧
    c1cex_entry.redirect = false ∧
    test_player.history.length < test_config.settings.history.size ∧
    ((test_player.choose c1cex_choice none test_config PromptModel.response
        test_ctx).bind Player.back).map Player.notes = .ok (∅ : Notes) ∧
    test_player.notes = {"x"} := by
  decide

/-- A concrete player with no notes and fresh history. -/
def w1_player : Player :=
  { began := true, lang := "en_us", channels := ∅, notes := ∅, vars := ∅,
    info_pages := ∅, log := [], history := [entry0] }

/-- A choice that jumps, gives the absent note "y", and sets variable "gold". -/
def w1_choice : Choice :=
  { empty_choice with
    jump := some ⟨none, ⟨"next"⟩⟩,
    notes := some { apply := some [⟨⟨"y"⟩, TemplatableValue.of_value false⟩],
                    require := none, once := none },
    vars := some [("gold", ⟨"10"⟩)] }

/-- The history entry `w1_choice` creates from `entry0`. -/
def w1_entry : HistoryEntry :=
  { path := ⟨"main", "next"⟩, display := true, locked := false,
    redirect := false, notes := some [⟨"y", false⟩],
    vars := some [("gold", ⟨"10", none⟩)], log := false }

/-- The player state after `w1_player` takes `w1_choice`. -/
def w1_p1 : Player :=
  { w1_player with
    notes := (insert "y" ∅ : Notes)
    vars := (Finmap.insert "gold" "10" ∅ : Variables)
    history := [w1_entry, entry0] }

theorem c1_apply_back_identity_witness :
    w1_player.notes = w1_player.notes ∧ w1_player.vars = w1_player.vars ∧
      w1_player.history.length = w1_player.history.length :=
  c1_apply_back_identity w1_player w1_p1 w1_player w1_choice none test_config
    PromptModel.response test_ctx entry0 [] w1_entry (by decide) (by decide)
    (by decide) (by decide) (by decide) (by decide) (by decide) (by decide)
    (by decide) (by decide)

end Nage

namespace Nage

/-! ### Redirect chains -/

/-- The conditions under which undoing a history entry restores the state it
was applied to: every note entry is effective (its symbol's presence flips)
with pairwise-distinct names, and every variable entry records the
pre-application value under pairwise-distinct keys. -/
def EntryOk (q : Player) (e : HistoryEntry) : Prop :=
  (∀ ne ∈ e.notes.getD [], ne.effective q.notes) ∧
  ((e.notes.getD []).map NoteEntry.value).Nodup ∧
  (∀ nv ∈ e.vars.getD [], entry_prev_ok q.vars nv) ∧
  ((e.vars.getD []).map Prod.fst).Nodup

instance (q : Player) (e : HistoryEntry) : Decidable (EntryOk q e) := by
  unfold EntryOk; infer_instance

/-- The player-state effect of one applied history entry: the entry-driven
mutations of `Player::apply_entry` (note entries, variable values), the
history push of `Player::choose` (cap eviction aside), and the log line
`line` gained in `Player::after_choice` when the entry records one. Info-page
unlocks come from the `Choice`, are not recorded in the entry, and are never
undone by `Player::back`, so they are not part of the entry-driven state. -/
def Player.apply_forward (p : Player) (e : HistoryEntry) (line : String) :
    Player :=
  { p with
    notes := match e.notes with
      | some es => apply_note_entries p.notes es
      | none => p.notes
    vars := match e.vars with
      | some vs => extend_vars p.vars vs
      | none => p.vars
    log := if e.log then line :: p.log else p.log
    history := e :: p.history }

/-- `RevChainOk p0 chain p`: `p` arose from `p0` by applying the entries of
`chain` (listed newest first, as in the player's history) in order, each entry
reversible in the state it was applied to. -/
def RevChainOk (p0 : Player) : List HistoryEntry → Player → Prop
  | [], p => p = p0
  | e :: rest, p =>
    ∃ q line, RevChainOk p0 rest q ∧ EntryOk q e ∧ p = q.apply_forward e line

/-- Undoing an applied entry under `EntryOk` restores the whole player. -/
theorem undo_apply_forward (q : Player) (e : HistoryEntry) (line : String)
    (hok : EntryOk q e) :
    Player.undo_entry { (q.apply_forward e line) with history := q.history } e
      = q := by
  obtain ⟨heff, hnd, hprev, hknd⟩ := hok
  obtain ⟨path, disp, lk, rd, nts, vrs, lg⟩ := e
  cases nts with
  | none => cases vrs with
    | none => cases lg <;>
        simp [Player.undo_entry, Player.apply_forward]
    | some vs =>
      simp only [Option.getD_some, Option.getD_none] at hprev hknd
      cases lg <;>
        simp [Player.undo_entry, Player.apply_forward,
          restore_extend_vars vs q.vars hknd hprev]
  | some l =>
    simp only [Option.getD_some, Option.getD_none] at heff hnd
    cases vrs with
    | none => cases lg <;>
        simp [Player.undo_entry, Player.apply_forward,
          undo_apply_note_entries l q.notes hnd heff]
    | some vs =>
      simp only [Option.getD_some] at hprev hknd
      cases lg <;>
        simp [Player.undo_entry, Player.apply_forward,
          undo_apply_note_entries l q.notes hnd heff,
          restore_extend_vars vs q.vars hknd hprev]

/-- C2 (amended): a `back` call from the end of a chain whose newest entries
all carry the `redirect` flag and whose final (oldest) entry does not — the
conscious choice that began the chain — pops every entry of the chain in one
call and, provided every chain entry is unlocked and reversible in the state
it was applied to (`EntryOk`: effective, distinct note entries and faithful
`previous` records), restores the player exactly to the state from before the
chain began. -/
theorem c2_redirect_chain_unwound
    (p0 p : Player) (chain : List HistoryEntry)
    (hchain : RevChainOk p0 chain p)
    (hne : chain ≠ [])
    (hlocked : ∀ e ∈ chain, e.locked = false)
    (hinner : ∀ e ∈ chain.dropLast, e.redirect = true)
    (hlast : ∀ e, chain.getLast? = some e → e.redirect = false) :
    p.history = chain ++ p0.history ∧ Player.back p = .ok p0 := by
  induction chain generalizing p with
  | nil => exact absurd rfl hne
  | cons e rest ih =>
    obtain ⟨q, line, hq, hok, hp⟩ := hchain
    have hhist : p.history = e :: q.history := by rw [hp]; rfl
    have hlocke : e.locked = false := hlocked e (by simp)
    have hundo : Player.undo_entry { p with history := q.history } e = q := by
      rw [hp]
      exact undo_apply_forward q e line hok
    cases rest with
    | nil =>
      have hqp0 : q = p0 := hq
      subst hqp0
      have hred : e.redirect = false := hlast e (by simp)
      constructor
      · rw [hhist]; rfl
      · rw [back_stop hhist hlocke hred, hundo]
    | cons f rest2 =>
      have hred : e.redirect = true := hinner e (by simp [List.dropLast])
      have hrest_ne : f :: rest2 ≠ [] := by simp
      have hlocked2 : ∀ x ∈ f :: rest2, x.locked = false := by
        intro x hx
        exact hlocked x (List.mem_cons_of_mem e hx)
      have hinner2 : ∀ x ∈ (f :: rest2).dropLast, x.redirect = true := by
        intro x hx
        apply hinner
        simp only [List.dropLast]
        exact List.mem_cons_of_mem e hx
      have hlast2 : ∀ x, (f :: rest2).getLast? = some x → x.redirect = false := by
        intro x hx
        apply hlast
        rw [List.getLast?_cons_cons]
        exact hx
      obtain ⟨ihh, ihb⟩ := ih q hq hrest_ne hlocked2 hinner2 hlast2
      constructor
      · rw [hhist, ihh]; rfl
      · rw [back_continue hhist hlocke hred, hundo]
        exact ihb

end Nage

namespace Nage

/-- The conscious (non-redirect) entry beginning the counterexample chain: it
re-gives the note "x" the player already holds. -/
def c2cex_e1 : HistoryEntry :=
  { path := ⟨"main", "a"⟩, display := true, locked := false, redirect := false,
    notes := some [⟨"x", false⟩], vars := none, log := false }

/-- The redirect entry ending the counterexample chain. -/
def c2cex_r2 : HistoryEntry :=
  { path := ⟨"main", "b"⟩, display := true, locked := false, redirect := true,
    notes := none, vars := none, log := false }

/-- The player at the end of the counterexample chain. -/
def c2cex_p : Player :=
  (test_player.apply_forward c2cex_e1 "").apply_forward c2cex_r2 ""

/-- C2 counterexample: at the end of a genuine redirect chain (final entry a
redirect, begun by an unlocked non-redirect choice) one `back` call does
remove all chain entries, but it does not restore Notes to their value from
before the chain began: the chain's first entry re-gave an already-held note,
so the reversal deletes "x" and Notes ends empty instead of `{"x"}`. -/
theorem c2_counterexample :
    c2cex_p.history = [c2cex_r2, c2cex_e1] ++ test_player.history ∧
    c2cex_r2.redirect = true ∧
    c2cex_e1.redirect = false ∧
    c2cex_e1.locked = false ∧
    c2cex_r2.locked = false ∧
    (Player.back c2cex_p).map Player.history = .ok test_player.history ∧
    (Player.back c2cex_p).map Player.notes = .ok (∅ : Notes) ∧
    test_player.notes = {"x"} := by
  decide

/-- The conscious entry beginning the witness chain: gives the absent note
"y". -/
def w2_e1 : HistoryEntry :=
  { path := ⟨"main", "a"⟩, display := true, locked := false, redirect := false,
    notes := some [⟨"y", false⟩], vars := none, log := false }

/-- The redirect entry ending the witness chain. -/
def w2_r2 : HistoryEntry :=
  { path := ⟨"main", "b"⟩, display := true, locked := false, redirect := true,
    notes := none, vars := none, log := false }

/-- The intermediate player after the witness chain's first entry. -/
def w2_q : Player := w1_player.apply_forward w2_e1 ""

/-- The player at the end of the witness chain. -/
def w2_p : Player := w2_q.apply_forward w2_r2 ""

theorem c2_redirect_chain_unwound_witness :
    w2_p.history = [w2_r2, w2_e1] ++ w1_player.history ∧
      Player.back w2_p = .ok w1_player :=
  c2_redirect_chain_unwound w1_player w2_p [w2_r2, w2_e1]
    ⟨w2_q, "", ⟨w1_player, "", rfl, by decide, rfl⟩, by decide, rfl⟩
    (by decide)
    (by decide)
    (by decide)
    (by
      intro e he
      injection he with h
      rw [← h]
      decide)

end Nage

namespace Nage

/-! ### History-cap and back-count bounds -/

/-- An unlocked redirect entry sitting directly above the entrypoint — the
state the game reaches when the entrypoint prompt itself is a redirect. -/
def c3_redirect_entry : HistoryEntry :=
  { path := ⟨"main", "r"⟩, display := true, locked := false, redirect := true,
    notes := none, vars := none, log := false }

/-- A player whose history is the entrypoint entry topped by one redirect
entry. -/
def c3_player : Player :=
  { began := true, lang := "en_us", channels := ∅, notes := ∅, vars := ∅,
    info_pages := ∅, log := [], history := [c3_redirect_entry, entry0] }

/-- C3: the invariant "history always contains at least one entry" is
violated by the code. With history `[entrypoint, redirect]` the back command's
length guard passes (two entries), and the redirect-unwinding loop of
`Player::back` pops the redirect entry and then the entrypoint entry itself,
leaving the history empty. -/
theorem c3_back_empties_history :
    entry0.locked = false ∧ entry0.redirect = false ∧
    c3_player.history.length = 2 ∧
    (RuntimeCommand.back c3_player).map Player.history = .ok [] := by
  decide

/-- `n` consecutive invocations of the back command, all succeeding. -/
def RuntimeCommand.back_n (p : Player) : Nat → Except String Player
  | 0 => .ok p
  | n + 1 => (RuntimeCommand.back p).bind (fun q => RuntimeCommand.back_n q n)

theorem runtime_back_ok {p q : Player} (h : RuntimeCommand.back p = .ok q) :
    2 ≤ p.history.length ∧ q.history.length < p.history.length := by
  unfold RuntimeCommand.back at h
  by_cases hl : p.history.length ≤ 1
  · rw [if_pos hl] at h; simp at h
  · rw [if_neg hl] at h
    exact ⟨by omega, back_ok_length h⟩

theorem back_n_le {n : Nat} : ∀ {p q : Player},
    RuntimeCommand.back_n p n = .ok q → n ≤ p.history.length - 1 := by
  induction n with
  | zero => intro p q _; omega
  | succ m ih =>
    intro p q h
    unfold RuntimeCommand.back_n at h
    cases hb : RuntimeCommand.back p with
    | error e => rw [hb] at h; simp at h
    | ok q1 =>
      rw [hb] at h
      simp only [except_method_bind_ok] at h
      obtain ⟨h2, hlt⟩ := runtime_back_ok hb
      have := ih h
      omega

/-- C4: (i) a successful `choose` keeps the history within the configured
cap; (ii) when the history already holds exactly `cap` entries, pushing the
next entry evicts exactly the oldest one and nothing else; (iii) starting
within the cap, no more than `cap` consecutive `back` commands can succeed,
however many choices were made before. -/
theorem c4_history_cap :
    (∀ (p p1 : Player) (choice : Choice) (input : Option VariableInputResult)
        (config : Manifest) (model : PromptModel) (ctx : TextContext),
      p.history.length ≤ config.settings.history.size →
      p.choose choice input config model ctx = .ok p1 →
      p1.history.length ≤ config.settings.history.size) ∧
    (∀ (p p1 q : Player) (choice : Choice) (input : Option VariableInputResult)
        (config : Manifest) (model : PromptModel) (ctx : TextContext)
        (latest0 : HistoryEntry) (hs : List HistoryEntry) (entry : HistoryEntry),
      p.history = latest0 :: hs →
      choice.to_history_entry latest0 input config p.vars model ctx =
        some (.ok entry) →
      p.apply_entry entry choice ctx = .ok q →
      p.history.length = config.settings.history.size →
      p.choose choice input config model ctx = .ok p1 →
      p1.history = (entry :: p.history).dropLast) ∧
    (∀ (p q : Player) (n cap : Nat),
      p.history.length ≤ cap →
      RuntimeCommand.back_n p n = .ok q →
      n ≤ cap) := by
  refine ⟨?_, ?_, ?_⟩
  · intro p p1 choice input config model ctx hcap hch
    rcases choose_ok_inv hch with ⟨hp1, _⟩ |
      ⟨latest0, hs, entry, q, hh0, _, happ, hp1⟩
    · rw [hp1]; exact hcap
    · have hqh : q.history = p.history := apply_entry_ok_history happ
      by_cases hcond : (entry :: q.history).length > config.settings.history.size
      · rw [if_pos hcond] at hp1
        rw [hp1]
        show (entry :: q.history).dropLast.length ≤ config.settings.history.size
        rw [List.length_dropLast, List.length_cons, hqh]
        omega
      · rw [if_neg hcond] at hp1
        rw [hp1]
        show (entry :: q.history).length ≤ config.settings.history.size
        omega
  · intro p p1 q choice input config model ctx latest0 hs entry hhist hent happ
      hfull hch
    rw [choose_spec hhist hent happ] at hch
    have hqh : q.history = p.history := apply_entry_ok_history happ
    have hcond : (entry :: q.history).length > config.settings.history.size := by
      simp only [List.length_cons, hqh]
      omega
    rw [if_pos hcond] at hch
    injection hch with hch
    rw [← hch]
    show (entry :: q.history).dropLast = (entry :: p.history).dropLast
    rw [hqh]
  · intro p q n cap hcap hn
    have := back_n_le hn
    omega

/-- The player-state result of applying `w1_entry` to `w1_player` before the
history push. -/
def w4_q : Player :=
  { w1_player with
    notes := (insert "y" ∅ : Notes)
    vars := (Finmap.insert "gold" "10" ∅ : Variables) }

/-- A manifest whose history cap is 1. -/
def test_config1 : Manifest := ⟨⟨⟨false, 1⟩⟩⟩

/-- The player after `w1_player` takes `w1_choice` under cap 1: the entrypoint
entry is evicted. -/
def w4_p1 : Player := { w4_q with history := [w1_entry] }

theorem c4_history_cap_witness :
    (w1_p1.history.length ≤ test_config.settings.history.size) ∧
    (w4_p1.history = (w1_entry :: w1_player.history).dropLast) ∧
    ((1 : Nat) ≤ 5) :=
  ⟨c4_history_cap.1 w1_player w1_p1 w1_choice none test_config
      PromptModel.response test_ctx (by decide) (by decide),
   c4_history_cap.2.1 w1_player w4_p1 w4_q w1_choice none test_config1
      PromptModel.response test_ctx entry0 [] w1_entry (by decide) (by decide)
      (by decide) (by decide) (by decide),
   c4_history_cap.2.2 w1_p1 w1_player 1 5 (by decide) (by decide)⟩

end Nage

namespace Nage

/-! ### Behaviour of the template scan -/

theorem push_append_mk (s : String) (c : Char) (cs : List Char) :
    s.push c ++ String.mk cs = s ++ String.mk (c :: cs) := by
  cases s with
  | mk l =>
    show String.mk (l ++ [c] ++ cs) = String.mk (l ++ (c :: cs))
    apply congrArg String.mk
    simp

theorem contains_of_mem {l : List Char} {c : Char} (h : c ∈ l) :
    l.contains c = true := by
  simpa using h

open TemplatableString in
/-- Characters that are neither delimiter, scanned outside a span, are pushed
to the output verbatim. -/
theorem scan_clean (before after : Char)
    (filler : String → Except String (Option String)) (cs : List Char)
    (hclean : ∀ c ∈ cs, c ≠ before ∧ c ≠ after) :
    ∀ acc, cs.foldlM (template_step before after filler) (acc, none) =
      .ok (acc ++ String.mk cs, none) := by
  induction cs with
  | nil =>
    intro acc
    show (pure (acc, none) : Except String (String × Option (List Char))) = _
    rw [except_pure_eq_ok]
    cases acc with
    | mk l =>
      show Except.ok (String.mk l, none) =
        Except.ok (String.mk l ++ String.mk [], none)
      have : String.mk l ++ String.mk [] = String.mk l := by
        show String.mk (l ++ []) = String.mk l
        simp
      rw [this]
  | cons c rest ih =>
    intro acc
    rw [List.foldlM_cons]
    have hc := hclean c (by simp)
    have hstep : template_step before after filler (acc, none) c =
        .ok (acc.push c, none) := by
      unfold template_step
      rw [if_neg hc.1, if_neg hc.2]
    rw [hstep]
    simp only [except_bind_ok]
    rw [ih (fun d hd => hclean d (List.mem_cons_of_mem c hd)) (acc.push c),
      push_append_mk]

open TemplatableString in
/-- Characters that are neither delimiter, scanned inside an open span, are
appended to the pending span and dropped from the output. -/
theorem scan_pending (before after : Char)
    (filler : String → Except String (Option String)) (cs : List Char)
    (hclean : ∀ c ∈ cs, c ≠ before ∧ c ≠ after) :
    ∀ acc var, cs.foldlM (template_step before after filler) (acc, some var) =
      .ok (acc, some (var ++ cs)) := by
  induction cs with
  | nil =>
    intro acc var
    show (pure (acc, some var) : Except String (String × Option (List Char))) = _
    rw [except_pure_eq_ok]
    simp
  | cons c rest ih =>
    intro acc var
    rw [List.foldlM_cons]
    have hc := hclean c (by simp)
    have hstep : template_step before after filler (acc, some var) c =
        .ok (acc, some (var ++ [c])) := by
      unfold template_step
      rw [if_neg hc.1, if_neg hc.2]
    rw [hstep]
    simp only [except_bind_ok]
    rw [ih (fun d hd => hclean d (List.mem_cons_of_mem c hd)) acc (var ++ [c])]
    simp

/-- The closer characters of a scanned segment: a closer met with no span open
falls through the scan's else-if chain without being pushed, so a segment
outside any span contributes only its non-closer characters. -/
def dropClosers (after : Char) (cs : List Char) : List Char :=
  cs.filter (fun c => c != after)

open TemplatableString in
/-- Scanning a segment without the opener character from a span-free state:
non-closer characters are pushed verbatim, closers are silently dropped. -/
theorem scan_no_opener (before after : Char)
    (filler : String → Except String (Option String)) (cs : List Char)
    (hpre : ∀ c ∈ cs, c ≠ before) :
    ∀ acc, cs.foldlM (template_step before after filler) (acc, none) =
      .ok (acc ++ String.mk (dropClosers after cs), none) := by
  induction cs with
  | nil =>
    intro acc
    show (pure (acc, none) : Except String (String × Option (List Char))) = _
    rw [except_pure_eq_ok]
    cases acc with
    | mk l =>
      show Except.ok (String.mk l, none) =
        Except.ok (String.mk l ++ String.mk [], none)
      have : String.mk l ++ String.mk [] = String.mk l := by
        show String.mk (l ++ []) = String.mk l
        simp
      rw [this]
  | cons c rest ih =>
    intro acc
    rw [List.foldlM_cons]
    have hb := hpre c (by simp)
    by_cases hc : c = after
    · have hstep : template_step before after filler (acc, none) c =
          .ok (acc, none) := by
        unfold template_step
        rw [if_neg hb, if_pos hc]
      rw [hstep]
      simp only [except_bind_ok]
      rw [ih (fun d hd => hpre d (List.mem_cons_of_mem c hd)) acc]
      have hd : dropClosers after (c :: rest) = dropClosers after rest := by
        unfold dropClosers
        rw [List.filter_cons]
        simp [hc]
      rw [hd]
    · have hstep : template_step before after filler (acc, none) c =
          .ok (acc.push c, none) := by
        unfold template_step
        rw [if_neg hb, if_neg hc]
      rw [hstep]
      simp only [except_bind_ok]
      rw [ih (fun d hd => hpre d (List.mem_cons_of_mem c hd)) (acc.push c)]
      have hd : dropClosers after (c :: rest) = c :: dropClosers after rest := by
        unfold dropClosers
        rw [List.filter_cons]
        simp [hc]
      rw [hd, push_append_mk]

open TemplatableString in
/-- Scanning a segment without the closer character from an open-span state:
the span never closes, so the output is untouched; further openers merely
reset the pending span. -/
theorem scan_pending_free (before after : Char)
    (filler : String → Except String (Option String)) (cs : List Char)
    (hfree : ∀ c ∈ cs, c ≠ after) :
    ∀ acc var, ∃ w,
      cs.foldlM (template_step before after filler) (acc, some var) =
        .ok (acc, some w) := by
  induction cs with
  | nil =>
    intro acc var
    refine ⟨var, ?_⟩
    show (pure (acc, some var) : Except String (String × Option (List Char))) = _
    rw [except_pure_eq_ok]
  | cons c rest ih =>
    intro acc var
    rw [List.foldlM_cons]
    have hc := hfree c (by simp)
    by_cases hb : c = before
    · have hstep : template_step before after filler (acc, some var) c =
          .ok (acc, some []) := by
        unfold template_step
        rw [if_pos hb]
      obtain ⟨w, hw⟩ := ih (fun d hd => hfree d (List.mem_cons_of_mem c hd)) acc []
      refine ⟨w, ?_⟩
      rw [hstep]
      simp only [except_bind_ok]
      exact hw
    · have hstep : template_step before after filler (acc, some var) c =
          .ok (acc, some (var ++ [c])) := by
        unfold template_step
        rw [if_neg hb, if_neg hc]
      obtain ⟨w, hw⟩ :=
        ih (fun d hd => hfree d (List.mem_cons_of_mem c hd)) acc (var ++ [c])
      refine ⟨w, ?_⟩
      rw [hstep]
      simp only [except_bind_ok]
      exact hw

/-- A string without the opener character passes through `template`
unchanged. -/
theorem template_no_opener (content : String) (before after : Char)
    (filler : String → Except String (Option String))
    (hnone : content.data.contains before = false) :
    TemplatableString.template content before after filler = .ok content := by
  unfold TemplatableString.template
  rw [hnone]
  rfl

/-- A single full span: the delimiter-free surroundings are copied verbatim
and the filler's answer (or the UNDEFINED default) replaces the span. -/
theorem template_single_span (before after : Char)
    (filler : String → Except String (Option String))
    (pre var post : List Char) (r : Option String)
    (hab : before ≠ after)
    (hpre : ∀ c ∈ pre, c ≠ before ∧ c ≠ after)
    (hvar : ∀ c ∈ var, c ≠ before ∧ c ≠ after)
    (hpost : ∀ c ∈ post, c ≠ before ∧ c ≠ after)
    (hfill : filler (String.mk var) = .ok r) :
    TemplatableString.template
        (String.mk (pre ++ before :: var ++ after :: post)) before after
        filler =
      .ok (String.mk pre ++ r.getD TemplatableString.DEFAULT_VALUE ++
        String.mk post) := by
  unfold TemplatableString.template
  have hcont : (String.mk (pre ++ before :: var ++ after :: post)).data.contains
      before = true :=
    contains_of_mem (by simp)
  rw [hcont]
  show ((pre ++ before :: var ++ after :: post).foldlM
      (TemplatableString.template_step before after filler) ("", none)).map
      Prod.fst = _
  rw [List.foldlM_append, List.foldlM_append]
  rw [scan_clean before after filler pre hpre ""]
  simp only [except_bind_ok]
  rw [List.foldlM_cons]
  have hstep1 : TemplatableString.template_step before after filler
      ("" ++ String.mk pre, none) before = .ok ("" ++ String.mk pre, some []) := by
    unfold TemplatableString.template_step
    rw [if_pos rfl]
  rw [hstep1]
  simp only [except_bind_ok]
  rw [scan_pending before after filler var hvar _ []]
  simp only [except_bind_ok, List.nil_append]
  rw [List.foldlM_cons]
  have hstep2 : TemplatableString.template_step before after filler
      ("" ++ String.mk pre, some var) after =
      .ok ("" ++ String.mk pre ++ r.getD TemplatableString.DEFAULT_VALUE,
        none) := by
    unfold TemplatableString.template_step
    rw [if_neg (Ne.symm hab), if_pos rfl]
    show (do
      let filled ← filler (String.mk var)
      .ok ("" ++ String.mk pre ++ filled.getD TemplatableString.DEFAULT_VALUE,
        none) : Except String (String × Option (List Char))) = _
    rw [hfill]
    simp only [except_bind_ok]
  rw [hstep2]
  simp only [except_bind_ok]
  rw [scan_clean before after filler post hpost _]
  rfl

/-- An opener with no matching closer: no error, and the output is exactly
the text before the opener. -/
theorem template_unmatched_opener (before after : Char)
    (filler : String → Except String (Option String)) (pre tail : List Char)
    (hpre : ∀ c ∈ pre, c ≠ before ∧ c ≠ after)
    (htail : ∀ c ∈ tail, c ≠ before ∧ c ≠ after) :
    TemplatableString.template (String.mk (pre ++ before :: tail)) before
        after filler =
      .ok (String.mk pre) := by
  unfold TemplatableString.template
  have hcont : (String.mk (pre ++ before :: tail)).data.contains before = true :=
    contains_of_mem (by simp)
  rw [hcont]
  show ((pre ++ before :: tail).foldlM
      (TemplatableString.template_step before after filler) ("", none)).map
      Prod.fst = _
  rw [List.foldlM_append, scan_clean before after filler pre hpre ""]
  simp only [except_bind_ok]
  rw [List.foldlM_cons]
  have hstep1 : TemplatableString.template_step before after filler
      ("" ++ String.mk pre, none) before = .ok ("" ++ String.mk pre, some []) := by
    unfold TemplatableString.template_step
    rw [if_pos rfl]
  rw [hstep1]
  simp only [except_bind_ok]
  rw [scan_pending before after filler tail htail _ []]
  rfl

/-- A single full span with arbitrary opener-free surroundings: the filler's
answer (or the UNDEFINED default) replaces the span, the surrounding characters
are copied verbatim except stray closers, which the scan drops. -/
theorem template_single_span_stray (before after : Char)
    (filler : String → Except String (Option String))
    (pre var post : List Char) (r : Option String)
    (hab : before ≠ after)
    (hpre : ∀ c ∈ pre, c ≠ before)
    (hvar : ∀ c ∈ var, c ≠ before ∧ c ≠ after)
    (hpost : ∀ c ∈ post, c ≠ before)
    (hfill : filler (String.mk var) = .ok r) :
    TemplatableString.template
        (String.mk (pre ++ before :: var ++ after :: post)) before after
        filler =
      .ok (String.mk (dropClosers after pre) ++
        r.getD TemplatableString.DEFAULT_VALUE ++
        String.mk (dropClosers after post)) := by
  unfold TemplatableString.template
  have hcont : (String.mk (pre ++ before :: var ++ after :: post)).data.contains
      before = true :=
    contains_of_mem (by simp)
  rw [hcont]
  show ((pre ++ before :: var ++ after :: post).foldlM
      (TemplatableString.template_step before after filler) ("", none)).map
      Prod.fst = _
  rw [List.foldlM_append, List.foldlM_append]
  rw [scan_no_opener before after filler pre hpre ""]
  simp only [except_bind_ok]
  rw [List.foldlM_cons]
  have hstep1 : TemplatableString.template_step before after filler
      ("" ++ String.mk (dropClosers after pre), none) before =
      .ok ("" ++ String.mk (dropClosers after pre), some []) := by
    unfold TemplatableString.template_step
    rw [if_pos rfl]
  rw [hstep1]
  simp only [except_bind_ok]
  rw [scan_pending before after filler var hvar _ []]
  simp only [except_bind_ok, List.nil_append]
  rw [List.foldlM_cons]
  have hstep2 : TemplatableString.template_step before after filler
      ("" ++ String.mk (dropClosers after pre), some var) after =
      .ok ("" ++ String.mk (dropClosers after pre) ++
        r.getD TemplatableString.DEFAULT_VALUE, none) := by
    unfold TemplatableString.template_step
    rw [if_neg (Ne.symm hab), if_pos rfl]
    show (do
      let filled ← filler (String.mk var)
      .ok ("" ++ String.mk (dropClosers after pre) ++
        filled.getD TemplatableString.DEFAULT_VALUE,
        none) : Except String (String × Option (List Char))) = _
    rw [hfill]
    simp only [except_bind_ok]
  rw [hstep2]
  simp only [except_bind_ok]
  rw [scan_no_opener before after filler post hpost _]
  rfl

/-- An opener with no matching closer before end-of-string: no error, and the
output is exactly the text before the opener with its stray closers removed;
the tail may contain further openers, which only reset the pending span. -/
theorem template_unmatched_opener_stray (before after : Char)
    (filler : String → Except String (Option String)) (pre tail : List Char)
    (hpre : ∀ c ∈ pre, c ≠ before)
    (htail : ∀ c ∈ tail, c ≠ after) :
    TemplatableString.template (String.mk (pre ++ before :: tail)) before
        after filler =
      .ok (String.mk (dropClosers after pre)) := by
  unfold TemplatableString.template
  have hcont : (String.mk (pre ++ before :: tail)).data.contains before = true :=
    contains_of_mem (by simp)
  rw [hcont]
  show ((pre ++ before :: tail).foldlM
      (TemplatableString.template_step before after filler) ("", none)).map
      Prod.fst = _
  rw [List.foldlM_append, scan_no_opener before after filler pre hpre ""]
  simp only [except_bind_ok]
  rw [List.foldlM_cons]
  have hstep1 : TemplatableString.template_step before after filler
      ("" ++ String.mk (dropClosers after pre), none) before =
      .ok ("" ++ String.mk (dropClosers after pre), some []) := by
    unfold TemplatableString.template_step
    rw [if_pos rfl]
  rw [hstep1]
  simp only [except_bind_ok]
  obtain ⟨w, hw⟩ := scan_pending_free before after filler tail htail
    ("" ++ String.mk (dropClosers after pre)) []
  rw [hw]
  rfl

/-- C5 (amended): (i) a string containing no opener character at all passes
through `template` verbatim — the scan is skipped, so even stray closer
characters survive; (ii) when the scan does run, a character outside any open
span is copied verbatim only if it is not the closer: a closer met with no
span open is silently dropped, so a single `opener-span-closer` occurrence
substitutes the filler's answer (or the UNDEFINED default) between the
surroundings with their stray closers removed; (iii) an opener with no
matching closer before end-of-string causes no error, but — contrary to the
claim as stated — the opener and every character after it are dropped from
the output, which is the text before the opener with its stray closers
removed. -/
theorem c5_template_spans :
    (∀ (content : String) (before after : Char)
        (filler : String → Except String (Option String)),
      content.data.contains before = false →
      TemplatableString.template content before after filler = .ok content) ∧
    (∀ (before after : Char) (filler : String → Except String (Option String))
        (pre var post : List Char) (r : Option String),
      before ≠ after →
      (∀ c ∈ pre, c ≠ before) →
      (∀ c ∈ var, c ≠ before ∧ c ≠ after) →
      (∀ c ∈ post, c ≠ before) →
      filler (String.mk var) = .ok r →
      TemplatableString.template
          (String.mk (pre ++ before :: var ++ after :: post)) before after
          filler =
        .ok (String.mk (dropClosers after pre) ++
          r.getD TemplatableString.DEFAULT_VALUE ++
          String.mk (dropClosers after post))) ∧
    (∀ (before after : Char) (filler : String → Except String (Option String))
        (pre tail : List Char),
      (∀ c ∈ pre, c ≠ before) →
      (∀ c ∈ tail, c ≠ after) →
      TemplatableString.template (String.mk (pre ++ before :: tail)) before
          after filler =
        .ok (String.mk (dropClosers after pre))) :=
  ⟨template_no_opener, template_single_span_stray, template_unmatched_opener_stray⟩

end Nage

namespace Nage

/-- C5 counterexample: two scans refute verbatim copying outside spans.
Templating "abc(def" — an opener with no matching closer — causes no error,
but the output is "abc": neither the opener nor any character after it is
copied to the output. And templating ")a(b)c" yields "aFc" (filler constantly
"F"): the leading closer sits outside any open span yet is dropped, not copied
verbatim; likewise ")a(b" yields "a", not ")a". -/
theorem c5_counterexample :
    TemplatableString.template "abc(def" '(' ')' (fun _ => .ok none) =
      .ok "abc" ∧
    ("abc".data.contains '(') = false ∧
    ("abc".data.contains 'd') = false ∧
    TemplatableString.template ")a(b)c" '(' ')' (fun _ => .ok (some "F")) =
      .ok "aFc" ∧
    ("aFc".data.contains ')') = false ∧
    TemplatableString.template ")a(b" '(' ')' (fun _ => .ok (some "F")) =
      .ok "a" := by
  decide

/-- A concrete filler that brackets the span it is given. -/
def w5_filler : String → Except String (Option String) :=
  fun s => .ok (some ("[" ++ s ++ "]"))

theorem c5_template_spans_witness :
    TemplatableString.template "x)y" '(' ')' w5_filler = .ok "x)y" ∧
    TemplatableString.template
        (String.mk ([')', 'a'] ++ '(' :: ['v'] ++ ')' :: [')', 'z']))
        '(' ')' w5_filler =
      .ok (String.mk (dropClosers ')' [')', 'a']) ++
        (some "[v]").getD TemplatableString.DEFAULT_VALUE ++
        String.mk (dropClosers ')' [')', 'z'])) ∧
    TemplatableString.template (String.mk ([')', 'a'] ++ '(' :: ['d', '(', 'e']))
        '(' ')' w5_filler = .ok (String.mk (dropClosers ')' [')', 'a'])) :=
  ⟨c5_template_spans.1 "x)y" '(' ')' w5_filler (by decide),
   c5_template_spans.2.1 '(' ')' w5_filler [')', 'a'] ['v'] [')', 'z']
     (some "[v]") (by decide) (by decide) (by decide) (by decide) rfl,
   c5_template_spans.2.2 '(' ')' w5_filler [')', 'a'] ['d', '(', 'e']
     (by decide) (by decide)⟩

end Nage

namespace Nage

/-! ### Variable interpolation -/

theorem lang_file_content_none (s : TemplatableString) :
    s.lang_file_content none = s.content := rfl

theorem string_mk_data (s : String) : String.mk s.data = s := rfl

theorem contains_eq_false_of_not_mem {l : List Char} {c : Char} (h : c ∉ l) :
    l.contains c = false := by
  simpa using h

theorem mk_empty_append_append (s : String) :
    String.mk [] ++ s ++ String.mk [] = s := by
  cases s with
  | mk l =>
    show String.mk (([] ++ l) ++ []) = String.mk l
    simp

/-- Filling a single `<var>` interpolation span with no translation file
loaded: the script pass is the identity (no opener present) and the variable
pass substitutes `fill_variable`'s resolution of `var`. -/
theorem fill_variable_span (ctx : TextContext) (var : String)
    (hclean : ∀ c ∈ var.data, c ≠ '(' ∧ c ≠ '<' ∧ c ≠ '>')
    (hlang : ctx.lang_file = none) :
    (TemplatableString.mk (String.mk ('<' :: var.data ++ ['>']))).fill ctx =
      .ok (((ctx.global_variable var).or (ctx.vars.lookup var)).getD
        TemplatableString.DEFAULT_VALUE) := by
  unfold TemplatableString.fill
  rw [hlang]
  rw [show (TemplatableString.mk
      (String.mk ('<' :: var.data ++ ['>']))).lang_file_content none =
      String.mk ('<' :: var.data ++ ['>']) from rfl]
  have hnoparen : (String.mk ('<' :: var.data ++ ['>'])).data.contains '(' =
      false := by
    apply contains_eq_false_of_not_mem
    intro hmem
    rcases List.mem_cons.mp hmem with h1 | hmem2
    · exact absurd h1 (by decide)
    rcases List.mem_append.mp hmem2 with h2 | h3
    · exact (hclean _ h2).1 rfl
    · rw [List.mem_singleton] at h3
      exact absurd h3 (by decide)
  rw [template_no_opener _ '(' ')' _ hnoparen]
  simp only [except_bind_ok]
  rw [show ('<' :: var.data ++ ['>'] : List Char) =
    ([] ++ '<' :: var.data) ++ '>' :: [] from by simp]
  rw [template_single_span '<' '>' _ [] var.data []
    (TemplatableString.fill_variable var ctx.vars ctx) (by decide) (by simp)
    (fun c hc => ⟨(hclean c hc).2.1, (hclean c hc).2.2⟩) (by simp)
    (by rw [string_mk_data])]
  rw [mk_empty_append_append]
  rfl

/-- C6: for every `<var>` span, resolution is the reserved `nage:` globals
first, then the player's Variables, then the silent UNDEFINED sentinel
(clause i, stated over `fill_variable`'s resolution chain); concretely,
`<undefined_var>` with the variable unset resolves to "UNDEFINED" (ii),
span-free text is returned unchanged (iii), and `<nage:lang>` resolves to the
active language code even if a player variable shadows the name (iv). -/
theorem c6_variable_resolution :
    (∀ (ctx : TextContext) (var : String),
      (∀ c ∈ var.data, c ≠ '(' ∧ c ≠ '<' ∧ c ≠ '>') →
      ctx.lang_file = none →
      (TemplatableString.mk (String.mk ('<' :: var.data ++ ['>']))).fill ctx =
        .ok (((ctx.global_variable var).or (ctx.vars.lookup var)).getD
          TemplatableString.DEFAULT_VALUE)) ∧
    (∀ ctx : TextContext, ctx.lang_file = none →
      ctx.vars.lookup "undefined_var" = none →
      (TemplatableString.mk "<undefined_var>").fill ctx = .ok "UNDEFINED") ∧
    (∀ ctx : TextContext, ctx.lang_file = none →
      (TemplatableString.mk "plain text").fill ctx = .ok "plain text") ∧
    (∀ ctx : TextContext, ctx.lang_file = none →
      (TemplatableString.mk "<nage:lang>").fill ctx = .ok ctx.lang) := by
  refine ⟨fill_variable_span, ?_, ?_, ?_⟩
  · intro ctx hlang hlookup
    rw [show (TemplatableString.mk "<undefined_var>") = TemplatableString.mk
      (String.mk ('<' :: "undefined_var".data ++ ['>'])) from by decide]
    rw [fill_variable_span ctx "undefined_var" (by decide) hlang]
    rw [show (ctx.global_variable "undefined_var").or
      (ctx.vars.lookup "undefined_var") = ctx.vars.lookup "undefined_var"
      from rfl]
    rw [hlookup]
    rfl
  · intro ctx hlang
    unfold TemplatableString.fill
    rw [hlang]
    rw [show (TemplatableString.mk "plain text").lang_file_content none =
      "plain text" from rfl]
    rw [template_no_opener "plain text" '(' ')' _ (by decide)]
    simp only [except_bind_ok]
    rw [template_no_opener "plain text" '<' '>' _ (by decide)]
  · intro ctx hlang
    rw [show (TemplatableString.mk "<nage:lang>") = TemplatableString.mk
      (String.mk ('<' :: "nage:lang".data ++ ['>'])) from by decide]
    rw [fill_variable_span ctx "nage:lang" (by decide) hlang]
    rfl

theorem c6_variable_resolution_witness :
    (TemplatableString.mk "<undefined_var>").fill test_ctx = .ok "UNDEFINED" ∧
    (TemplatableString.mk "plain text").fill test_ctx = .ok "plain text" ∧
    (TemplatableString.mk "<nage:lang>").fill test_ctx = .ok "en_us" :=
  ⟨c6_variable_resolution.2.1 test_ctx rfl (Finmap.lookup_empty _),
   c6_variable_resolution.2.2.1 test_ctx rfl,
   c6_variable_resolution.2.2.2 test_ctx rfl⟩

end Nage

namespace Nage

/-! ### Script spans -/

/-- A span whose filler fails aborts the whole template resolution with the
filler's error. -/
theorem template_span_error (before after : Char)
    (filler : String → Except String (Option String))
    (pre var post : List Char) (err : String)
    (hab : before ≠ after)
    (hpre : ∀ c ∈ pre, c ≠ before ∧ c ≠ after)
    (hvar : ∀ c ∈ var, c ≠ before ∧ c ≠ after)
    (hfill : filler (String.mk var) = .error err) :
    TemplatableString.template
        (String.mk (pre ++ before :: var ++ after :: post)) before after
        filler =
      .error err := by
  unfold TemplatableString.template
  have hcont : (String.mk (pre ++ before :: var ++ after :: post)).data.contains
      before = true :=
    contains_of_mem (by simp)
  rw [hcont]
  show ((pre ++ before :: var ++ after :: post).foldlM
      (TemplatableString.template_step before after filler) ("", none)).map
      Prod.fst = _
  rw [List.foldlM_append, List.foldlM_append]
  rw [scan_clean before after filler pre hpre ""]
  simp only [except_bind_ok]
  rw [List.foldlM_cons]
  have hstep1 : TemplatableString.template_step before after filler
      ("" ++ String.mk pre, none) before = .ok ("" ++ String.mk pre, some []) := by
    unfold TemplatableString.template_step
    rw [if_pos rfl]
  rw [hstep1]
  simp only [except_bind_ok]
  rw [scan_pending before after filler var hvar _ []]
  simp only [except_bind_ok, List.nil_append]
  rw [List.foldlM_cons]
  have hstep2 : TemplatableString.template_step before after filler
      ("" ++ String.mk pre, some var) after = .error err := by
    unfold TemplatableString.template_step
    rw [if_neg (Ne.symm hab), if_pos rfl]
    show (do
      let filled ← filler (String.mk var)
      .ok ("" ++ String.mk pre ++ filled.getD TemplatableString.DEFAULT_VALUE,
        none) : Except String (String × Option (List Char))) = _
    rw [hfill]
    simp only [except_bind_error]
  rw [hstep2]
  simp only [except_bind_error, except_map_error]

/-- C7 (amended): during the script-call pass, a `(name)` span whose script
file is loaded but whose evaluation fails aborts the whole resolution with
that error (i); but — contrary to the claim as stated — a span whose script
name is NOT among the loaded script files is silently substituted with the
`UNDEFINED` sentinel and resolution succeeds (ii). -/
theorem c7_script_span_errors :
    (∀ (ctx : TextContext) (name fname : String) (func : Option String)
        (script : ScriptFile) (err : String),
      ctx.lang_file = none →
      (∀ c ∈ name.data, c ≠ '(' ∧ c ≠ ')') →
      file_components name = (fname, func) →
      ctx.scripts.lookup fname = some script →
      script func = .error err →
      (TemplatableString.mk (String.mk ('(' :: name.data ++ [')']))).fill ctx =
        .error (script_error name err)) ∧
    (∀ (ctx : TextContext) (name : String),
      ctx.lang_file = none →
      (∀ c ∈ name.data, c ≠ '(' ∧ c ≠ ')') →
      ctx.scripts.lookup (file_components name).1 = none →
      (TemplatableString.mk (String.mk ('(' :: name.data ++ [')']))).fill ctx =
        .ok "UNDEFINED") := by
  constructor
  · intro ctx name fname func script err hlang hclean hcomp hlook heval
    unfold TemplatableString.fill
    rw [hlang]
    rw [show (TemplatableString.mk
        (String.mk ('(' :: name.data ++ [')']))).lang_file_content none =
        String.mk ('(' :: name.data ++ [')']) from rfl]
    rw [show ('(' :: name.data ++ [')'] : List Char) =
      ([] ++ '(' :: name.data) ++ ')' :: [] from by simp]
    have hfill : Scripts.get ctx.scripts (String.mk name.data) =
        .error (script_error name err) := by
      rw [string_mk_data]
      unfold Scripts.get
      simp only [hcomp]
      simp only [hlook]
      simp only [heval]
    rw [template_span_error '(' ')' _ [] name.data [] (script_error name err)
      (by decide) (by simp)
      (fun c hc => (hclean c hc))
      hfill]
    simp only [except_bind_error]
  · intro ctx name hlang hclean hlook
    unfold TemplatableString.fill
    rw [hlang]
    rw [show (TemplatableString.mk
        (String.mk ('(' :: name.data ++ [')']))).lang_file_content none =
        String.mk ('(' :: name.data ++ [')']) from rfl]
    rw [show ('(' :: name.data ++ [')'] : List Char) =
      ([] ++ '(' :: name.data) ++ ')' :: [] from by simp]
    have hfill : Scripts.get ctx.scripts (String.mk name.data) =
        .ok (none : Option String) := by
      rw [string_mk_data]
      unfold Scripts.get
      simp only [hlook]
    rw [template_single_span '(' ')' _ [] name.data [] none (by decide)
      (by simp) (fun c hc => (hclean c hc)) (by simp) hfill]
    rw [mk_empty_append_append]
    simp only [except_bind_ok]
    rw [template_no_opener _ '<' '>' _ (by decide)]
    rfl

/-- C7 counterexample: with no script files loaded, resolving "(foo)" — an
unknown script name — does not abort with an error; it succeeds and
substitutes the UNDEFINED sentinel. -/
theorem c7_counterexample :
    test_ctx.scripts = [] ∧
    (TemplatableString.mk "(foo)").fill test_ctx = .ok "UNDEFINED" :=
  ⟨rfl, by decide⟩

/-- A script whose evaluation always fails. -/
def w7_script : ScriptFile := fun _ => .error "lua blew up"

/-- A context with the failing script loaded under the name "boom". -/
def w7_ctx : TextContext :=
  { test_ctx with scripts := [("boom", w7_script)] }

theorem c7_script_span_errors_witness :
    (TemplatableString.mk (String.mk ('(' :: "boom".data ++ [')']))).fill
        w7_ctx = .error (script_error "boom" "lua blew up") ∧
    (TemplatableString.mk (String.mk ('(' :: "foo".data ++ [')']))).fill
        test_ctx = .ok "UNDEFINED" :=
  ⟨c7_script_span_errors.1 w7_ctx "boom" "boom" none w7_script "lua blew up"
      rfl (by decide) rfl rfl rfl,
   c7_script_span_errors.2 test_ctx "foo" rfl (by decide) rfl⟩

end Nage

namespace Nage

/-! ### Choice and prompt validation -/

/-- A choice with neither `jump` nor `ending` fails validation. -/
theorem except_bind_const_error {ε α β : Type} (x : Except ε α) (e : ε)
    (b : β) : x.bind (fun _ => (Except.error e : Except ε β)) ≠ .ok b := by
  cases x <;> simp

theorem validate_no_jump_no_ending (c : Choice) (f : String) (hc : Bool)
    (prompts : Prompts) (hj : c.jump = none) (he : c.ending = none) :
    c.validate f hc prompts =
      .error "Lacks `jump` section, but doesn't have an `ending` section" := by
  unfold Choice.validate Choice.validate_jump
  simp only [hj, he]
  rfl

/-- A choice with company but no `response` never validates. -/
theorem validate_response_missing (c : Choice) (f : String) (prompts : Prompts)
    (hr : c.response = none) : c.validate f true prompts ≠ .ok () := by
  unfold Choice.validate
  rw [hr]
  exact except_bind_const_error _ _ ()

/-- A choice whose statically-known jump target exists (and whose `response`
requirement is met) validates. -/
theorem validate_ok_of_target (c : Choice) (f : String) (hc : Bool)
    (prompts : Prompts) (j : Path) (tgt : Prompt)
    (hj : c.jump = some j)
    (hv : j.is_validatable = true)
    (htgt : Prompt.get prompts j.prompt.content
      ((j.file.map (fun t => t.content)).getD f) = .ok tgt)
    (hresp : hc = false ∨ c.response.isSome) :
    c.validate f hc prompts = .ok () := by
  unfold Choice.validate Choice.validate_jump
  simp only [hj, if_pos hv, htgt]
  simp only [except_method_bind_ok]
  rcases hresp with hresp | hresp
  · rw [hresp]
    rfl
  · rw [show c.response.isNone = false from by
      cases hr : c.response with
      | none => rw [hr] at hresp; simp at hresp
      | some r => rfl]
    simp

/-- C8 (amended): `Choice::validate` fails when the choice has neither `jump`
nor `ending` (i); it fails whenever the choice has company but no `response`
(ii); and for a statically-known jump target present in the prompt index it
succeeds whenever the response requirement is met (iii) — in particular, a
choice with BOTH `jump` and `ending` is accepted: contrary to the claim as
stated, only at-least-one of `jump`/`ending` is enforced, not exactly-one. -/
theorem c8_choice_validate :
    (∀ (c : Choice) (f : String) (hc : Bool) (prompts : Prompts),
      c.jump = none → c.ending = none →
      c.validate f hc prompts =
        .error "Lacks `jump` section, but doesn't have an `ending` section") ∧
    (∀ (c : Choice) (f : String) (prompts : Prompts),
      c.response = none → c.validate f true prompts ≠ .ok ()) ∧
    (∀ (c : Choice) (f : String) (hc : Bool) (prompts : Prompts) (j : Path)
        (tgt : Prompt),
      c.jump = some j →
      j.is_validatable = true →
      Prompt.get prompts j.prompt.content
        ((j.file.map (fun t => t.content)).getD f) = .ok tgt →
      (hc = false ∨ c.response.isSome) →
      c.validate f hc prompts = .ok ()) :=
  ⟨validate_no_jump_no_ending, validate_response_missing, validate_ok_of_target⟩

/-- A prompt index with one file "main" holding one prompt "next". -/
def test_prompts : Prompts := [("main", [("next", ⟨none, []⟩)])]

/-- A choice carrying BOTH a valid `jump` and an `ending`. -/
def c8cex_choice : Choice :=
  { empty_choice with jump := some ⟨none, ⟨"next"⟩⟩, ending := some [] }

/-- C8 counterexample: a choice with both `jump` and `ending` — which the
claim says must fail validation — is accepted by `Choice::validate`. -/
theorem c8_counterexample :
    c8cex_choice.jump.isSome = true ∧ c8cex_choice.ending.isSome = true ∧
    c8cex_choice.validate "main" false test_prompts = .ok () := by
  decide

/-- A choice with a response text and a valid jump. -/
def w8_choice : Choice :=
  { empty_choice with
    jump := some ⟨none, ⟨"next"⟩⟩
    response := some ⟨⟨"hi"⟩, .dialogue⟩ }

theorem c8_choice_validate_witness :
    empty_choice.validate "main" false test_prompts =
      .error "Lacks `jump` section, but doesn't have an `ending` section" ∧
    c8cex_choice.validate "main" true test_prompts ≠ .ok () ∧
    w8_choice.validate "main" true test_prompts = .ok () :=
  ⟨c8_choice_validate.1 empty_choice "main" false test_prompts rfl rfl,
   c8_choice_validate.2.1 c8cex_choice "main" test_prompts rfl,
   c8_choice_validate.2.2 w8_choice "main" true test_prompts ⟨none, ⟨"next"⟩⟩
     ⟨none, []⟩ rfl (by decide) (by decide) (Or.inr (by decide))⟩

end Nage

namespace Nage

/-- C9 (amended): a Prompt whose sole Choice has BOTH an `input` spec and a
`response` is NOT rejected at validation time — neither `Choice::validate`
nor `Prompt::validate` inspects `input`, so (with a statically-valid jump)
validation succeeds — and the prompt is classified as the `Input` model: the
input spec takes precedence and the response plays no role. -/
theorem c9_input_and_response_accepted
    (p : Prompt) (c : Choice) (f : String) (prompts : Prompts)
    (ctx : TextContext) (inp : VariableInput) (r : Text) (j : Path)
    (tgt : Prompt) (nm : String)
    (hch : p.choices = [c])
    (hin : c.input = some inp)
    (hresp : c.response = some r)
    (hjump : c.jump = some j)
    (hval : j.is_validatable = true)
    (htgt : Prompt.get prompts j.prompt.content
      ((j.file.map (fun t => t.content)).getD f) = .ok tgt)
    (hname : inp.name.fill ctx = .ok nm) :
    p.validate f prompts = .ok () ∧
    p.model ctx = .ok (.input nm inp.text) := by
  constructor
  · unfold Prompt.validate
    rw [hch]
    have hv1 : c.validate f (decide (([c] : List Choice).length > 1)) prompts
        = .ok () :=
      validate_ok_of_target c f _ prompts j tgt hjump hval htgt (Or.inl rfl)
    simp only [List.mapM_cons, List.mapM_nil]
    rw [hv1]
    rfl
  · unfold Prompt.model
    rw [hch]
    show (match c.input with
      | some input => (input.name.fill ctx).map (fun n =>
          PromptModel.input n input.text)
      | none =>
        if c.response.isNone then
          match c.ending with
          | some ending => .ok (.ending ending)
          | none => .ok (.redirect c)
        else .ok .response) = _
    rw [hin]
    show (inp.name.fill ctx).map (fun n => PromptModel.input n inp.text) = _
    rw [hname]
    rfl

/-- A choice carrying an `input` spec, a `response`, and a valid jump. -/
def c9cex_choice : Choice :=
  { empty_choice with
    input := some ⟨none, ⟨"name"⟩⟩
    response := some ⟨⟨"hi"⟩, .dialogue⟩
    jump := some ⟨none, ⟨"next"⟩⟩ }

/-- A prompt holding exactly that choice. -/
def c9cex_prompt : Prompt := ⟨none, [c9cex_choice]⟩

/-- C9 counterexample: a Prompt with one Choice having both `input` and
`response` — which the claim says is rejected at validation time — passes
`Prompt::validate`. -/
theorem c9_counterexample :
    c9cex_choice.input.isSome = true ∧ c9cex_choice.response.isSome = true ∧
    c9cex_prompt.choices.length = 1 ∧
    c9cex_prompt.validate "main" test_prompts = .ok () := by
  decide

theorem c9_input_and_response_accepted_witness :
    c9cex_prompt.validate "main" test_prompts = .ok () ∧
    c9cex_prompt.model test_ctx = .ok (.input "name" none) :=
  c9_input_and_response_accepted c9cex_prompt c9cex_choice "main" test_prompts
    test_ctx ⟨none, ⟨"name"⟩⟩ ⟨⟨"hi"⟩, .dialogue⟩ ⟨none, ⟨"next"⟩⟩ ⟨none, []⟩
    "name" rfl rfl rfl rfl (by decide) (by decide) (by decide)

end Nage

namespace Nage

/-- C10: a choice without `jump` (an ending choice) leaves the player's
notes, variables, unlocked info pages, log and history entirely unchanged
through `Player::choose`: `to_history_entry` returns `none` for every latest
entry, so no note entries, variable entries or info unlocks are applied and
nothing is pushed to history. (Sound actions borrow the player immutably and
the log / rich-presence step happens only in the separate `after_choice`.) -/
theorem c10_ending_choice_frame
    (p p1 : Player) (choice : Choice) (input : Option VariableInputResult)
    (config : Manifest) (model : PromptModel) (ctx : TextContext)
    (hjump : choice.jump = none)
    (hch : p.choose choice input config model ctx = .ok p1) :
    (∀ latest : HistoryEntry,
      choice.to_history_entry latest input config p.vars model ctx = none) ∧
    p1.notes = p.notes ∧ p1.vars = p.vars ∧ p1.info_pages = p.info_pages ∧
    p1.log = p.log ∧ p1.history = p.history := by
  have hent : ∀ latest : HistoryEntry,
      choice.to_history_entry latest input config p.vars model ctx = none := by
    intro latest
    unfold Choice.to_history_entry
    rw [hjump]
    rfl
  refine ⟨hent, ?_⟩
  rcases choose_ok_inv hch with ⟨hp1, _⟩ |
    ⟨l0, hs0, entry, q, _, hent', _, _⟩
  · rw [hp1]
    exact ⟨rfl, rfl, rfl, rfl, rfl⟩
  · rw [hent l0] at hent'
    exact absurd hent' (by simp)

/-- An ending choice: no `jump`, only ending text. -/
def w10_choice : Choice := { empty_choice with ending := some [] }

theorem c10_ending_choice_frame_witness :
    w10_choice.to_history_entry entry0 none test_config test_player.vars
        PromptModel.response test_ctx = none ∧
    test_player.notes = test_player.notes ∧
    test_player.vars = test_player.vars ∧
    test_player.info_pages = test_player.info_pages ∧
    test_player.log = test_player.log ∧
    test_player.history = test_player.history :=
  have h := c10_ending_choice_frame test_player test_player w10_choice none
    test_config PromptModel.response test_ctx rfl (by decide)
  ⟨h.1 entry0, h.2⟩

end Nage
